import Mathlib

/-!
Verification of the bookmark synchronization and taxonomy engine of the
`chrome-favorite-expand` browser extension.

The definitions below are a shallow embedding of the TypeScript sources:
`src/services/bookmark.ts`, `src/stores/bookmark.ts`,
`src/utils/bookmarkHelper.ts`, and the second bookmark-service
implementation (flatten + convertBrowserBookmarks + buildCategoryTree).
JavaScript `Date.now()` is passed explicitly as a `now : Nat` parameter,
`uuidv4()` as a fresh-name supply `fresh : Nat → String` threaded with a
counter, and `new URL(u).origin` as an external parser
`originOf : String → Option String`.  JS `Array.prototype.sort` (stable)
is embedded as a stable insertion sort.
-/

set_option maxHeartbeats 1000000

namespace ChromeFavExpand

/-- Folder display state, from the `FolderState` enum in `src/constants/index.ts`. -/
inductive FolderState where
  | expanded
  | collapsed
  deriving DecidableEq, Repr

/-- AI-derived metadata attached to a bookmark (`Bookmark.aiGenerated` in `src/types`). -/
@[ext] structure AiGenerated where
  category : Option String := none
  tags : Option (List String) := none
  summary : Option String := none
  confidence : Option Nat := none
  deriving DecidableEq, Repr

/-- Bookmark record, from `Bookmark` in `src/types/index.ts`.
Optional TS fields are `Option`s; numeric timestamps are `Nat`. -/
@[ext] structure Bookmark where
  id : String
  title : String
  url : String
  favicon : Option String := none
  description : Option String := none
  categoryId : String
  tags : List String
  createdAt : Nat
  updatedAt : Nat
  lastVisited : Option Nat := none
  visitCount : Nat
  aiGenerated : Option AiGenerated := none
  originalId : Option String := none
  parentId : Option String := none
  index : Option Nat := none
  deriving DecidableEq, Repr

/-- Category record, from `Category` in `src/types/index.ts`.
`builtin` is an optional TS field used only in truthiness tests, so the
absent case is embedded as `false`. -/
@[ext] structure Category where
  id : String
  name : String
  parentId : Option String := none
  color : Option String := none
  icon : Option String := none
  order : Nat
  createdAt : Nat
  updatedAt : Nat
  bookmarkCount : Nat
  isAiGenerated : Bool
  builtin : Bool := false
  folderState : Option FolderState := none
  deriving DecidableEq, Repr

/-- Tag record, from `Tag` in `src/types/index.ts`. -/
@[ext] structure Tag where
  id : String
  name : String
  color : Option String := none
  count : Nat
  createdAt : Nat
  updatedAt : Nat
  isAiGenerated : Bool
  deriving DecidableEq, Repr

/-- A flattened browser bookmark node, from `BrowserBookmarkNode`
(`flattenBookmarkTree` output). -/
@[ext] structure HostNode where
  id : String
  parentId : Option String := none
  title : String
  url : Option String := none
  dateAdded : Option Nat := none
  dateGroupModified : Option Nat := none
  index : Option Nat := none
  deriving DecidableEq, Repr

/-- The four builtin categories of `DEFAULT_CATEGORIES` in
`src/constants/index.ts`, instantiated the way `convertBrowserBookmarks`
spreads them when the stored category list is empty. -/
def defaultCategories (now : Nat) : List Category :=
  [ { id := "all", name := "所有书签", icon := some "bookmark", order := 0,
      createdAt := now, updatedAt := now, bookmarkCount := 0,
      isAiGenerated := false, builtin := true },
    { id := "frequent", name := "常用书签", icon := some "star", order := 0,
      createdAt := now, updatedAt := now, bookmarkCount := 0,
      isAiGenerated := false, builtin := true },
    { id := "recent", name := "最近添加", icon := some "clock", order := 0,
      createdAt := now, updatedAt := now, bookmarkCount := 0,
      isAiGenerated := false, builtin := true },
    { id := "uncategorized", name := "未分类", icon := some "folder", order := 0,
      createdAt := now, updatedAt := now, bookmarkCount := 0,
      isAiGenerated := false, builtin := true } ]

/-- The leaf URL of a host node: `node.url` when it is present and
non-empty, mirroring the JS truthiness test `if (!node.url)`. -/
def HostNode.leafUrl (n : HostNode) : Option String :=
  match n.url with
  | none => none
  | some u => if u = "" then none else some u

/-- Lookup in a JS `Map` built from a list of key/value pairs:
later entries overwrite earlier ones, so the surviving binding for a key
is the last pair carrying it. -/
def mapGet (m : List (Option String × Bookmark)) (k : String) : Option Bookmark :=
  (m.reverse.find? fun p => p.1 == some k).map Prod.snd

/-- JS falsiness of an optional string field (absent or empty). -/
def strOptFalsy (s : Option String) : Bool :=
  match s with
  | none => true
  | some v => v == ""

/-- The favicon-extraction step of `convertBrowserBookmarks`: when the
bookmark has no favicon, try to parse its URL and derive one from the
origin; a parse failure leaves the bookmark unchanged. -/
def setFavicon (originOf : String → Option String) (b : Bookmark) : Bookmark :=
  if strOptFalsy b.favicon then
    match originOf b.url with
    | some o => { b with favicon := some ("chrome://favicon/" ++ o) }
    | none => b
  else b

/-- The update branch of `convertBrowserBookmarks` for a host leaf with a
previously stored record: spread the existing bookmark, overwrite title
and url from the node (JS `node.title || existing.title`), and set
`updatedAt` to the current time unconditionally. -/
def mergeExisting (now : Nat) (n : HostNode) (u : String) (eb : Bookmark) : Bookmark :=
  { eb with
    title := if n.title = "" then eb.title else n.title,
    url := u,
    updatedAt := now,
    originalId := some n.id }

/-- The create branch of `convertBrowserBookmarks` for a host leaf with no
stored record. -/
def createFromNode (now : Nat) (n : HostNode) (u : String) (newId : String) : Bookmark :=
  { id := newId,
    title := if n.title = "" then "未命名书签" else n.title,
    url := u,
    categoryId := "uncategorized",
    tags := [],
    createdAt := n.dateAdded.getD now,
    updatedAt := now,
    visitCount := 0,
    originalId := some n.id }

/-- The main loop of `convertBrowserBookmarks`: traverse the flattened
host nodes in order, skip folders, and merge or create a record per leaf.
The `Nat` component threads the fresh-id counter. -/
def convertLoop (originOf : String → Option String) (fresh : Nat → String) (now : Nat)
    (bookmarkMap : List (Option String × Bookmark)) :
    List HostNode → Nat → List Bookmark × Nat
  | [], c => ([], c)
  | n :: ns, c =>
    match n.leafUrl with
    | none => convertLoop originOf fresh now bookmarkMap ns c
    | some u =>
      match mapGet bookmarkMap n.id with
      | some eb =>
        let rest := convertLoop originOf fresh now bookmarkMap ns c
        (setFavicon originOf (mergeExisting now n u eb) :: rest.1, rest.2)
      | none =>
        let rest := convertLoop originOf fresh now bookmarkMap ns (c + 1)
        (setFavicon originOf (createFromNode now n u (fresh c)) :: rest.1, rest.2)

/-- The final pass of `convertBrowserBookmarks` (and the `recount`
aggregate of the spec): recompute every category's `bookmarkCount` as the
number of bookmarks directly assigned to it, bumping `updatedAt`. -/
def recount (now : Nat) (bookmarks : List Bookmark) (categories : List Category) :
    List Category :=
  categories.map fun c =>
    { c with
      bookmarkCount := (bookmarks.filter fun b => b.categoryId == c.id).length,
      updatedAt := now }

/-- Result pair of `convertBrowserBookmarks`. -/
@[ext] structure ConvertResult where
  bookmarks : List Bookmark
  categories : List Category
  deriving DecidableEq, Repr

/-- `convertBrowserBookmarks` from the second bookmark-service
implementation: the reconciliation pass over the flattened host tree. -/
def convertBrowserBookmarks (originOf : String → Option String) (fresh : Nat → String)
    (now : Nat) (browserBookmarks : List HostNode) (storedBookmarks : List Bookmark)
    (storedCategories : List Category) : ConvertResult :=
  let cats := if 0 < storedCategories.length then storedCategories else defaultCategories now
  let bookmarkMap := storedBookmarks.map fun b => (b.originalId, b)
  let bks := (convertLoop originOf fresh now bookmarkMap browserBookmarks 0).1
  { bookmarks := bks, categories := recount now bks cats }

/-- A sample category used to instantiate witnesses. -/
def sampleCategory : Category :=
  { id := "c1", name := "Work", order := 0, createdAt := 0, updatedAt := 0,
    bookmarkCount := 7, isAiGenerated := false }

/-- The host leaves processed by the conversion loop, paired with their
(non-empty) urls, in traversal order. -/
def leafNodes (ns : List HostNode) : List (HostNode × String) :=
  ns.filterMap fun n => (HostNode.leafUrl n).map fun u => (n, u)

/-- Invariant tying a processed host leaf to the record the conversion
loop emits for it: the record is keyed by the node id, carries the node's
title (when non-empty) and url, and lacks a favicon only when the url has
no parseable origin. -/
def GoodRec (originOf : String → Option String) (p : HostNode × String) (r : Bookmark) : Prop :=
  r.originalId = some p.1.id ∧
  (p.1.title ≠ "" → r.title = p.1.title) ∧
  r.url = p.2 ∧
  (strOptFalsy r.favicon = true → originOf p.2 = none)

/-- A URL parser that always fails, for concrete instantiations. -/
def originNone : String → Option String := fun _ => none

/-- A deterministic stand-in for the `uuidv4()` supply. -/
def freshIds : Nat → String := fun n => "uuid-" ++ toString n

/-- A one-leaf host tree used in concrete instantiations. -/
def sampleHost : List HostNode :=
  [{ id := "h1", title := "Site A", url := some "https://a.example", dateAdded := some 5 }]

/-- A bookmark created purely inside the application: it has no
`originalId` correlating it to any host node. -/
def orphanBookmark : Bookmark :=
  { id := "b-app", title := "App only", url := "https://local.example",
    categoryId := "uncategorized", tags := [], createdAt := 1, updatedAt := 1,
    visitCount := 0 }

/-- JS `Map.set` on a name-keyed tag map: overwrite the value of an
existing key in place, otherwise append a new binding. -/
def mapSetTag (m : List (String × Tag)) (k : String) (v : Tag) : List (String × Tag) :=
  if m.any fun p => p.1 == k then
    m.map fun p => if p.1 == k then (k, v) else p
  else m ++ [(k, v)]

/-- The initialization pass of the store's `updateTags`: seed the map with
every prior tag under its name, with `count` reset to `0`. -/
def initTagMap (ts : List Tag) : List (String × Tag) :=
  ts.foldl (fun m t => mapSetTag m t.name { t with count := 0 }) []

/-- All tag names referenced by the bookmark set, in traversal order
(the nested `bookmarks.forEach(b => b.tags.forEach(...))` of
`updateTags`, flattened). -/
def allTagNames (bs : List Bookmark) : List String :=
  bs.foldr (fun b acc => b.tags ++ acc) []

/-- One step of the counting pass of `updateTags`: an occurrence of
`tagName` increments the existing record's count, or inserts a fresh
record with count `1`.  The `Nat` threads the fresh-id counter. -/
def tagStep (now : Nat) (fresh : Nat → String) (s : List (String × Tag) × Nat)
    (tagName : String) : List (String × Tag) × Nat :=
  if s.1.any fun p => p.1 == tagName then
    (s.1.map fun p =>
      if p.1 == tagName then (p.1, { p.2 with count := p.2.count + 1 }) else p, s.2)
  else
    (s.1 ++ [(tagName,
      { id := fresh s.2, name := tagName, count := 1, createdAt := now,
        updatedAt := now, isAiGenerated := false })], s.2 + 1)

/-- The store's `updateTags` (the `retag` aggregate of the spec): rebuild
the tag set from the bookmarks' tag lists, dropping every record whose
recomputed count is zero. -/
def updateTags (now : Nat) (fresh : Nat → String) (bookmarks : List Bookmark)
    (tags : List Tag) : List Tag :=
  let m := ((allTagNames bookmarks).foldl (tagStep now fresh) (initTagMap tags, 0)).1
  (m.map Prod.snd).filter fun t => decide (0 < t.count)

/-- A bookmark whose tag list repeats a name, exercising the difference
between occurrence counting and referencing-bookmark counting. -/
def dupTagBookmark : Bookmark :=
  { id := "b1", title := "t", url := "https://t.example",
    categoryId := "uncategorized", tags := ["a", "a"], createdAt := 0,
    updatedAt := 0, visitCount := 0 }

/-- Stable insertion: place `a` before the first element `y` such that
`r a y` ("a may precede y").  Together with `sortOrd` this is the
extensional behavior of JS `Array.prototype.sort` (stable since ES2019)
under a comparator whose "may precede" relation is `r`. -/
def insertOrd {α : Type} (r : α → α → Bool) (a : α) : List α → List α
  | [] => [a]
  | y :: ys => if r a y then a :: y :: ys else y :: insertOrd r a ys

/-- Stable sort by insertion from the right: the element earliest in the
original array is inserted last, landing before any element it ties
with. -/
def sortOrd {α : Type} (r : α → α → Bool) : List α → List α
  | [] => []
  | a :: l => insertOrd r a (sortOrd r l)

/-- "May precede" relation of the comparator
`(a, b) => b.visitCount - a.visitCount` used by the `frequent`
projection: descending visit count, ties keeping original order. -/
def byVisitDesc (a y : Bookmark) : Bool := decide (y.visitCount ≤ a.visitCount)

/-- Pair a list with ascending indices starting at `i`. -/
def enumF {α : Type} (i : Nat) : List α → List (Nat × α)
  | [] => []
  | a :: l => (i, a) :: enumF (i + 1) l

/-- Total order on index-tagged bookmarks: strictly greater visit count
first, ties broken by smaller original index. -/
def visitIdxLe (p q : Nat × Bookmark) : Bool :=
  decide (q.2.visitCount < p.2.visitCount ∨
    (p.2.visitCount = q.2.visitCount ∧ p.1 ≤ q.1))

/-- Spec-side reading of "the 20 bookmarks with the highest visitCount,
ties broken by original array order": tag each bookmark with its index,
sort by the total order `visitIdxLe`, take 20, and drop the indices. -/
def specTop20 (bms : List Bookmark) : List Bookmark :=
  ((sortOrd visitIdxLe (enumF 0 bms)).take 20).map Prod.snd

/-- The sort key union of `SearchParams.sortBy`. -/
inductive SortKey where
  | title
  | dateAdded
  | lastVisited
  | url
  deriving DecidableEq, Repr

/-- The sort direction union of `SearchParams.sortOrder`. -/
inductive SortOrder where
  | asc
  | desc
  deriving DecidableEq, Repr

/-- Search parameters of the store projection (`SearchParams` in
`src/types`); absent optional strings are embedded as `""` and an absent
tag list as `[]`, matching the JS truthiness tests that guard each
stage. -/
structure SearchParams where
  keyword : String := ""
  categoryId : String := "all"
  tags : List String := []
  sortBy : SortKey := SortKey.dateAdded
  sortOrder : SortOrder := SortOrder.desc
  deriving Repr

/-- Lower-cased character list of a string (JS `toLowerCase` on the
basic-plane characters this code handles). -/
def lowerChars (s : String) : List Char := s.data.map Char.toLower

/-- Character-list prefix test. -/
def charsHasPre (hay pre : List Char) : Bool :=
  match hay, pre with
  | _, [] => true
  | [], _ :: _ => false
  | a :: as, b :: bs => a == b && charsHasPre as bs

/-- JS `String.prototype.includes`: substring containment. -/
def charsContains (needle : List Char) : List Char → Bool
  | [] => needle == []
  | c :: t => charsHasPre (c :: t) needle || charsContains needle t

/-- The keyword predicate of the store projection: case-insensitive
substring match against title, url, description, or any tag. -/
def matchesKeyword (kw : String) (b : Bookmark) : Bool :=
  charsContains (lowerChars kw) (lowerChars b.title) ||
  charsContains (lowerChars kw) (lowerChars b.url) ||
  (match b.description with
   | some d => charsContains (lowerChars kw) (lowerChars d)
   | none => false) ||
  b.tags.any fun t => charsContains (lowerChars kw) (lowerChars t)

/-- Category-filter stage of the store's `filteredBookmarks`. -/
def categoryStage (now : Nat) (p : SearchParams) (bms : List Bookmark) : List Bookmark :=
  if p.categoryId ≠ "" ∧ p.categoryId ≠ "all" then
    if p.categoryId = "uncategorized" then
      bms.filter fun b => b.categoryId == "" || b.categoryId == "uncategorized"
    else if p.categoryId = "frequent" then
      (sortOrd byVisitDesc bms).take 20
    else if p.categoryId = "recent" then
      bms.filter fun b => decide (now - 30 * 24 * 60 * 60 * 1000 ≤ b.createdAt)
    else
      bms.filter fun b => b.categoryId == p.categoryId
  else bms

/-- Tag-filter stage of the store's `filteredBookmarks`: every requested
tag must be on the bookmark (`every` in the source). -/
def tagStage (p : SearchParams) (bms : List Bookmark) : List Bookmark :=
  if p.tags ≠ [] then
    bms.filter fun b => p.tags.all fun t => b.tags.contains t
  else bms

/-- Keyword-filter stage of the store's `filteredBookmarks`. -/
def keywordStage (p : SearchParams) (bms : List Bookmark) : List Bookmark :=
  if p.keyword ≠ "" then bms.filter (matchesKeyword p.keyword) else bms

/-- The comparison value of the store's sort comparator, before the
direction sign is applied.  `cmpStr` stands in for the external
`localeCompare`. -/
def bookmarkComparison (cmpStr : String → String → Int) (sk : SortKey)
    (a b : Bookmark) : Int :=
  match sk with
  | SortKey.title => cmpStr a.title b.title
  | SortKey.dateAdded => (a.createdAt : Int) - (b.createdAt : Int)
  | SortKey.lastVisited => (a.lastVisited.getD 0 : Int) - (b.lastVisited.getD 0 : Int)
  | SortKey.url => cmpStr a.url b.url

/-- Sort stage of the store's `filteredBookmarks`: stable sort under the
direction-adjusted comparator. -/
def sortStage (cmpStr : String → String → Int) (p : SearchParams)
    (bms : List Bookmark) : List Bookmark :=
  sortOrd (fun a b =>
    decide ((match p.sortOrder with
      | SortOrder.asc => bookmarkComparison cmpStr p.sortBy a b
      | SortOrder.desc => - bookmarkComparison cmpStr p.sortBy a b) ≤ 0)) bms

/-- The store's `filteredBookmarks` projection over the raw records:
category filter, then tag filter, then keyword filter, then sort
(the trailing `enhanceBookmarks` display decoration maps the selection
one-to-one and is outside this embedding). -/
def filteredBookmarks (cmpStr : String → String → Int) (now : Nat) (p : SearchParams)
    (bms : List Bookmark) : List Bookmark :=
  sortStage cmpStr p (keywordStage p (tagStage p (categoryStage now p bms)))

/-- Category-filter stage of the service's `searchBookmarks`. -/
def serviceCatStage (now : Nat) (categoryId : Option String) (bms : List Bookmark) :
    List Bookmark :=
  match categoryId with
  | none => bms
  | some cid =>
    if cid ≠ "" ∧ cid ≠ "all" then
      if cid = "frequent" then
        (sortOrd byVisitDesc bms).take 20
      else if cid = "recent" then
        sortOrd (fun a b => decide (b.createdAt ≤ a.createdAt))
          (bms.filter fun b => decide (now - 7 * 24 * 60 * 60 * 1000 < b.createdAt))
      else if cid = "uncategorized" then
        bms.filter fun b => b.categoryId == "uncategorized"
      else
        bms.filter fun b => b.categoryId == cid
    else bms

/-- Tag-filter stage of the service's `searchBookmarks`: `some`, i.e. at
least one requested tag on the bookmark suffices. -/
def serviceTagStage (tags : Option (List String)) (bms : List Bookmark) : List Bookmark :=
  match tags with
  | none => bms
  | some ts =>
    if ts ≠ [] then bms.filter fun b => ts.any fun t => b.tags.contains t
    else bms

/-- Keyword-filter stage of the service's `searchBookmarks` (title, url,
description; no tag match). -/
def serviceKeywordStage (keyword : Option String) (bms : List Bookmark) : List Bookmark :=
  match keyword with
  | none => bms
  | some kw =>
    if kw.trim ≠ "" then
      bms.filter fun b =>
        charsContains (lowerChars kw.trim) (lowerChars b.title) ||
        charsContains (lowerChars kw.trim) (lowerChars b.url) ||
        (match b.description with
         | some d => charsContains (lowerChars kw.trim) (lowerChars d)
         | none => false)
    else bms

/-- The service's `searchBookmarks` pipeline. -/
def serviceSearchBookmarks (now : Nat) (bms : List Bookmark) (keyword : Option String)
    (categoryId : Option String) (tags : Option (List String)) : List Bookmark :=
  serviceKeywordStage keyword (serviceTagStage tags (serviceCatStage now categoryId bms))

/-- A bookmark carrying only the first of two requested tags. -/
def partialTagBookmark : Bookmark :=
  { id := "b2", title := "partial", url := "https://p.example",
    categoryId := "uncategorized", tags := ["a"], createdAt := 0, updatedAt := 0,
    visitCount := 0 }

/-- Search parameters requesting two tags. -/
def twoTagParams : SearchParams :=
  { keyword := "", categoryId := "all", tags := ["a", "b"] }

/-- Search parameters selecting the `frequent` virtual category. -/
def frequentParams : SearchParams :=
  { keyword := "", categoryId := "frequent", tags := [] }

/-- A string comparison stub standing in for `localeCompare` in concrete
instantiations. -/
def cmpZero : String → String → Int := fun _ _ => 0

/-- A bookmark with a given id index and visit count, for concrete
instantiations of the frequent projection. -/
def visitBookmark (i k : Nat) : Bookmark :=
  { id := "v" ++ toString i, title := "v", url := "https://v.example",
    categoryId := "uncategorized", tags := [], createdAt := 0, updatedAt := 0,
    visitCount := k }

/-- Five bookmarks with assorted visit counts. -/
def visitSample : List Bookmark :=
  [visitBookmark 0 50, visitBookmark 1 10, visitBookmark 2 5, visitBookmark 3 100,
    visitBookmark 4 1]

/-- The grouping key of `buildCategoryTree`:
`category.parentId || 'root'` (JS falsiness, so an absent or empty
parent id groups the category at the root). -/
def parentKey (c : Category) : String :=
  match c.parentId with
  | none => "root"
  | some s => if s = "" then "root" else s

/-- The sibling group of `buildCategoryTree` for a given parent key, in
input order (the two grouping passes of the source push categories into
per-key arrays in traversal order). -/
def childrenOf (cats : List Category) (p : String) : List Category :=
  cats.filter fun c => parentKey c == p

/-- A node of the projected category tree: the category's own fields
(spread by `buildCategoryTree`), plus the computed `level`, the computed
`folderState`, and the recursively built children. -/
inductive CatNode where
  | mk (id name : String) (parentId color icon : Option String)
      (order createdAt updatedAt bookmarkCount : Nat)
      (isAiGenerated builtin : Bool) (level : Nat) (folderState : FolderState)
      (children : List CatNode) : CatNode

def CatNode.id : CatNode → String
  | CatNode.mk i _ _ _ _ _ _ _ _ _ _ _ _ _ => i

def CatNode.order : CatNode → Nat
  | CatNode.mk _ _ _ _ _ o _ _ _ _ _ _ _ _ => o

def CatNode.level : CatNode → Nat
  | CatNode.mk _ _ _ _ _ _ _ _ _ _ _ lv _ _ => lv

def CatNode.folderState : CatNode → FolderState
  | CatNode.mk _ _ _ _ _ _ _ _ _ _ _ _ fs _ => fs

def CatNode.children : CatNode → List CatNode
  | CatNode.mk _ _ _ _ _ _ _ _ _ _ _ _ _ cs => cs

/-- The node built by `buildCategoryTree` for category `c` at `level`,
with the given children: every category field is spread into the node,
`level` is the recursion depth, and `folderState` is computed from the
level alone (root expanded, deeper collapsed), overriding any persisted
value. -/
def nodeOf (c : Category) (level : Nat) (children : List CatNode) : CatNode :=
  CatNode.mk c.id c.name c.parentId c.color c.icon c.order c.createdAt c.updatedAt
    c.bookmarkCount c.isAiGenerated c.builtin level
    (if level < 1 then FolderState.expanded else FolderState.collapsed) children

/-- The recursive tree builder of `buildCategoryTree`: map each category
of the sibling group to a node with recursively built children, then sort
the siblings by `order` ascending (stable).  The JS recursion is
unbounded (it diverges on a `parentId` cycle); `fuel` bounds it, and
`buildCategoryTree` supplies enough fuel to reproduce the JS behavior on
every forest. -/
def buildTree (cats : List Category) : Nat → String → Nat → List CatNode
  | 0, _, _ => []
  | fuel + 1, p, level =>
    sortOrd (fun a b => decide (CatNode.order a ≤ CatNode.order b))
      ((childrenOf cats p).map fun c =>
        nodeOf c level (buildTree cats fuel c.id (level + 1)))

/-- `buildCategoryTree` from the second bookmark-service implementation. -/
def buildCategoryTree (cats : List Category) : List CatNode :=
  buildTree cats (cats.length + 1) "root" 0

/-- Well-formedness of a projected tree node at a given depth, as
`buildCategoryTree` computes it: the `level` field equals the depth, the
`folderState` equals the level-computed default (expanded at the root
level, collapsed deeper) regardless of any persisted value, the children
are sorted by `order` ascending, and every child is well-formed at the
next depth. -/
inductive GoodNode : Nat → CatNode → Prop where
  | mk : ∀ (id name : String) (parentId color icon : Option String)
      (order createdAt updatedAt bookmarkCount : Nat)
      (isAiGenerated builtin : Bool) (lv : Nat) (children : List CatNode),
      (∀ t ∈ children, GoodNode (lv + 1) t) →
      List.Pairwise (fun a b => CatNode.order a ≤ CatNode.order b) children →
      GoodNode lv (CatNode.mk id name parentId color icon order createdAt updatedAt
        bookmarkCount isAiGenerated builtin lv
        (if lv < 1 then FolderState.expanded else FolderState.collapsed) children)

/-- A root category with a persisted collapsed folder state. -/
def collapsedRootCategory : Category :=
  { id := "c1", name := "Work", order := 0, createdAt := 0, updatedAt := 0,
    bookmarkCount := 0, isAiGenerated := false,
    folderState := some FolderState.collapsed }

/-- The reactive state of the bookmark store (`bookmarks`, `categories`,
`tags` refs in `src/stores/bookmark.ts`); persistence write-backs mirror
this state and are not modeled separately. -/
@[ext] structure Store where
  bookmarks : List Bookmark
  categories : List Category
  tags : List Tag
  deriving DecidableEq, Repr

/-- A TS `Partial<Bookmark>` update object: a `some` field overwrites the
record's field under the spread `{ ...old, ...changes }`, an absent field
leaves it unchanged. -/
structure BookmarkPatch where
  id : Option String := none
  title : Option String := none
  url : Option String := none
  favicon : Option String := none
  description : Option String := none
  categoryId : Option String := none
  tags : Option (List String) := none
  createdAt : Option Nat := none
  lastVisited : Option Nat := none
  visitCount : Option Nat := none
  aiGenerated : Option AiGenerated := none
  originalId : Option String := none
  parentId : Option String := none
  index : Option Nat := none
  deriving Repr

/-- `{ ...oldBookmark, ...changes, updatedAt: Date.now() }` of the
store's `updateBookmark`. -/
def applyPatch (b : Bookmark) (ch : BookmarkPatch) (now : Nat) : Bookmark :=
  { id := ch.id.getD b.id,
    title := ch.title.getD b.title,
    url := ch.url.getD b.url,
    favicon := match ch.favicon with | some v => some v | none => b.favicon,
    description := match ch.description with | some v => some v | none => b.description,
    categoryId := ch.categoryId.getD b.categoryId,
    tags := ch.tags.getD b.tags,
    createdAt := ch.createdAt.getD b.createdAt,
    updatedAt := now,
    lastVisited := match ch.lastVisited with | some v => some v | none => b.lastVisited,
    visitCount := ch.visitCount.getD b.visitCount,
    aiGenerated := match ch.aiGenerated with | some v => some v | none => b.aiGenerated,
    originalId := match ch.originalId with | some v => some v | none => b.originalId,
    parentId := match ch.parentId with | some v => some v | none => b.parentId,
    index := match ch.index with | some v => some v | none => b.index }

/-- Replace the first element satisfying `p` (the JS
`findIndex` + indexed assignment idiom); a list without a match is
returned unchanged. -/
def updateFirst {α : Type} (p : α → Bool) (f : α → α) : List α → List α
  | [] => []
  | x :: xs => if p x then f x :: xs else x :: updateFirst p f xs

/-- Remove the first element satisfying `p` (the JS
`findIndex` + `splice(index, 1)` idiom). -/
def removeFirst {α : Type} (p : α → Bool) : List α → List α
  | [] => []
  | x :: xs => if p x then xs else x :: removeFirst p xs

/-- The store's `updateCategoryBookmarkCount`: recompute the named
category's `bookmarkCount` by direct membership over the current
bookmarks, bumping its `updatedAt`; a missing category is a no-op. -/
def updateCategoryBookmarkCount (st : Store) (categoryId : String) (now : Nat) : Store :=
  let count := (st.bookmarks.filter fun b => b.categoryId == categoryId).length
  let upd := fun (c : Category) => { c with bookmarkCount := count, updatedAt := now }
  if st.categories.any fun c => c.id == categoryId then
    { st with categories := updateFirst (fun c => c.id == categoryId) upd st.categories }
  else st

/-- The store's `updateBookmark`: patch the first record with the given
id, then recompute both category counts when the category changed and
rebuild the tag set when the tag list changed.  The browser passthrough
is external and best-effort, so it does not appear in the state. -/
def updateBookmark (st : Store) (id : String) (changes : BookmarkPatch) (now : Nat)
    (fresh : Nat → String) : Bool × Store :=
  match st.bookmarks.find? fun b => b.id == id with
  | none => (false, st)
  | some oldBookmark =>
    let updated := applyPatch oldBookmark changes now
    let newBookmarks := updateFirst (fun b => b.id == id) (fun _ => updated) st.bookmarks
    let st₁ := { st with bookmarks := newBookmarks }
    let st₂ :=
      if oldBookmark.categoryId ≠ updated.categoryId then
        updateCategoryBookmarkCount
          (updateCategoryBookmarkCount st₁ oldBookmark.categoryId now)
          updated.categoryId now
      else st₁
    let st₃ :=
      if oldBookmark.tags ≠ updated.tags then
        { st₂ with tags := updateTags now fresh st₂.bookmarks st₂.tags }
      else st₂
    (true, st₃)

/-- The store's `deleteCategory`: refuse for a missing or builtin
category; otherwise reassign every affected bookmark to `uncategorized`
via `updateBookmark` and drop the category. -/
def deleteCategory (st : Store) (id : String) (now : Nat) (fresh : Nat → String) :
    Bool × Store :=
  match st.categories.find? fun c => c.id == id with
  | none => (false, st)
  | some category =>
    if category.builtin then (false, st)
    else
      let affected := st.bookmarks.filter fun b => b.categoryId == id
      let st₁ := affected.foldl
        (fun s b => (updateBookmark s b.id { categoryId := some "uncategorized" }
          now fresh).2) st
      (true, { st₁ with categories := st₁.categories.filter fun c => c.id != id })

/-- The store's `deleteBookmark`: remove the first record with the given
id, recompute its category's count, and rebuild the tag set when the
record carried tags; an unknown id returns `false` and mutates
nothing. -/
def deleteBookmark (st : Store) (id : String) (now : Nat) (fresh : Nat → String) :
    Bool × Store :=
  match st.bookmarks.find? fun b => b.id == id with
  | none => (false, st)
  | some bookmark =>
    let st₁ := { st with bookmarks := removeFirst (fun b => b.id == id) st.bookmarks }
    let st₂ := updateCategoryBookmarkCount st₁ bookmark.categoryId now
    let st₃ :=
      if bookmark.tags ≠ [] then
        { st₂ with tags := updateTags now fresh st₂.bookmarks st₂.tags }
      else st₂
    (true, st₃)

/-- The reassignment `deleteCategory` applies to each affected bookmark
through `updateBookmark`: category set to `uncategorized`, `updatedAt`
bumped, everything else untouched. -/
def reassignCat (now : Nat) (b : Bookmark) : Bookmark :=
  { b with categoryId := "uncategorized", updatedAt := now }

/-- A non-builtin category bearing the reserved id `uncategorized`. -/
def fakeUncategorized : Category :=
  { id := "uncategorized", name := "Fake", order := 0, createdAt := 0, updatedAt := 0,
    bookmarkCount := 1, isAiGenerated := false }

/-- A bookmark filed under `uncategorized`. -/
def uncatBookmark : Bookmark :=
  { id := "b3", title := "x", url := "https://x.example",
    categoryId := "uncategorized", tags := [], createdAt := 0, updatedAt := 0,
    visitCount := 0 }

/-- A store whose only category is the non-builtin `uncategorized`. -/
def fakeUncatStore : Store :=
  { bookmarks := [uncatBookmark], categories := [fakeUncategorized], tags := [] }

/-- A small store for witnesses. -/
def sampleStore : Store :=
  { bookmarks := [orphanBookmark], categories := defaultCategories 0, tags := [] }

/-- A bookmark tree node as traversed by the search helper in
`src/utils/bookmarkHelper.ts` (the fields the search reads: title, an
optional url, and the children). -/
inductive BNode where
  | mk (id : String) (title : String) (url : Option String) (children : List BNode)

def BNode.title : BNode → String
  | BNode.mk _ t _ _ => t

def BNode.url : BNode → Option String
  | BNode.mk _ _ u _ => u

def BNode.children : BNode → List BNode
  | BNode.mk _ _ _ c => c

/-- The match predicate of the helper's `searchBookmarks`: the lowercased
title or (when present) lowercased url contains the lowercased query. -/
def nodeMatches (q : String) (n : BNode) : Bool :=
  charsContains (lowerChars q) (lowerChars n.title) ||
  (match n.url with
   | some u => charsContains (lowerChars q) (lowerChars u)
   | none => false)

mutual
/-- The recursive `search` closure of the helper's `searchBookmarks`:
push the node when it matches, then always recurse into its children. -/
def searchNode (q : String) : BNode → List BNode
  | BNode.mk i t u cs =>
    (if nodeMatches q (BNode.mk i t u cs) then [BNode.mk i t u cs] else []) ++
      searchNodes q cs

/-- `nodes.forEach(search)` over a forest, collecting matches in
depth-first order. -/
def searchNodes (q : String) : List BNode → List BNode
  | [] => []
  | n :: ns => searchNode q n ++ searchNodes q ns
end

/-- The helper's `searchBookmarks`: an empty query short-circuits to the
empty list; otherwise the forest is searched depth-first. -/
def searchBookmarksHelper (nodes : List BNode) (query : String) : List BNode :=
  if query = "" then [] else searchNodes query nodes

mutual
/-- Depth-first (preorder) flattening of one node. -/
def flattenNode : BNode → List BNode
  | BNode.mk i t u cs => BNode.mk i t u cs :: flattenNodes cs

/-- Depth-first (preorder) flattening of a forest. -/
def flattenNodes : List BNode → List BNode
  | [] => []
  | n :: ns => flattenNode n ++ flattenNodes ns
end

/-- A two-level sample forest: a non-matching folder with a matching
child. -/
def sampleForest : List BNode :=
  [BNode.mk "f" "Folder" none [BNode.mk "l" "Deep Lean" (some "https://l.example") []]]

/-- C3: after `recount`, every category in the resulting category set
(including categories with zero members) has `bookmarkCount` equal to the
number of bookmarks whose `categoryId` equals that category's id — a
direct-membership count, never a subtree aggregate. -/
theorem c3_recount_count_consistency (now : Nat) (bookmarks : List Bookmark)
    (categories : List Category) (c : Category)
    (hc : c ∈ recount now bookmarks categories) :
    c.bookmarkCount = (bookmarks.filter fun b => b.categoryId == c.id).length := by
  rcases List.mem_map.mp hc with ⟨c₀, _, rfl⟩
  rfl

/-- Witness for C3 at a concrete input: recounting a singleton category
list against an empty bookmark set resets its count to zero. -/
theorem c3_recount_count_consistency_witness :
    ({ sampleCategory with bookmarkCount := 0, updatedAt := 5 } : Category).bookmarkCount
      = (([] : List Bookmark).filter fun b =>
          b.categoryId == ({ sampleCategory with bookmarkCount := 0, updatedAt := 5 } :
            Category).id).length :=
  c3_recount_count_consistency 5 [] [sampleCategory] _ (by decide)

theorem setFavicon_url (originOf : String → Option String) (b : Bookmark) :
    (setFavicon originOf b).url = b.url := by
  unfold setFavicon
  split
  · split <;> rfl
  · rfl

theorem setFavicon_title (originOf : String → Option String) (b : Bookmark) :
    (setFavicon originOf b).title = b.title := by
  unfold setFavicon
  split
  · split <;> rfl
  · rfl

theorem setFavicon_originalId (originOf : String → Option String) (b : Bookmark) :
    (setFavicon originOf b).originalId = b.originalId := by
  unfold setFavicon
  split
  · split <;> rfl
  · rfl

theorem chromeFavicon_ne_empty (o : String) : ("chrome://favicon/" ++ o) ≠ "" := by
  intro h
  have h2 := congrArg String.length h
  rw [String.length_append] at h2
  have h3 : ("chrome://favicon/" : String).length = 17 := rfl
  have h4 : ("" : String).length = 0 := rfl
  omega

theorem setFavicon_good (originOf : String → Option String) (b : Bookmark)
    (h : strOptFalsy (setFavicon originOf b).favicon = true) : originOf b.url = none := by
  unfold setFavicon at h
  by_cases hf : strOptFalsy b.favicon = true
  · rw [if_pos hf] at h
    cases ho : originOf b.url with
    | some o =>
      rw [ho] at h
      exact absurd (by simpa [strOptFalsy] using h) (chromeFavicon_ne_empty o)
    | none => rfl
  · rw [if_neg hf] at h
    exact absurd h hf

theorem forall₂_mem_right {α β : Type} {R : α → β → Prop} {l₁ : List α} {l₂ : List β}
    (h : List.Forall₂ R l₁ l₂) : ∀ b ∈ l₂, ∃ a ∈ l₁, R a b := by
  induction h with
  | nil => intro b hb; cases hb
  | cons h₁ h₂ ih =>
    intro b hb
    rcases List.mem_cons.mp hb with rfl | hb
    · exact ⟨_, List.mem_cons_self _ _, h₁⟩
    · rcases ih b hb with ⟨a, ha, hr⟩
      exact ⟨a, List.mem_cons_of_mem _ ha, hr⟩

theorem forall₂_imp_mem {α β : Type} {R S : α → β → Prop} {l₁ : List α} {l₂ : List β}
    (h : List.Forall₂ R l₁ l₂) :
    (∀ a ∈ l₁, ∀ b ∈ l₂, R a b → S a b) → List.Forall₂ S l₁ l₂ := by
  induction h with
  | nil => intro _; exact List.Forall₂.nil
  | cons h₁ h₂ ih =>
    intro himp
    refine List.Forall₂.cons
      (himp _ (List.mem_cons_self _ _) _ (List.mem_cons_self _ _) h₁) (ih ?_)
    intro a ha b hb hr
    exact himp a (List.mem_cons_of_mem _ ha) b (List.mem_cons_of_mem _ hb) hr

theorem mapGet_cons_self (k : String) (r : Bookmark) (m : List (Option String × Bookmark))
    (hm : ∀ pr ∈ m, pr.1 ≠ some k) : mapGet ((some k, r) :: m) k = some r := by
  unfold mapGet
  rw [List.reverse_cons, List.find?_append]
  have hnone : m.reverse.find? (fun p => p.1 == some k) = none := by
    rw [List.find?_eq_none]
    intro x hx
    simpa using hm x (List.mem_reverse.mp hx)
  rw [hnone]
  simp [List.find?]

theorem mapGet_cons_ne (k k' : String) (r : Bookmark) (m : List (Option String × Bookmark))
    (hne : k' ≠ k) : mapGet ((some k, r) :: m) k' = mapGet m k' := by
  unfold mapGet
  rw [List.reverse_cons, List.find?_append]
  cases hf : m.reverse.find? (fun p => p.1 == some k') with
  | some pr => simp [hf]
  | none =>
    have hkk : (k == k') = false := beq_eq_false_iff_ne.mpr (Ne.symm hne)
    simp [hf, List.find?, hkk]

theorem goodRec_setFavicon (originOf : String → Option String) (n : HostNode) (u : String)
    (b : Bookmark) (hid : b.originalId = some n.id) (ht : n.title ≠ "" → b.title = n.title)
    (hu : b.url = u) : GoodRec originOf (n, u) (setFavicon originOf b) := by
  refine ⟨?_, ?_, ?_, ?_⟩
  · rw [setFavicon_originalId]; exact hid
  · intro h; rw [setFavicon_title]; exact ht h
  · rw [setFavicon_url]; exact hu
  · intro hf
    have h2 := setFavicon_good originOf b hf
    rwa [hu] at h2

theorem leafNodes_cons_none (n : HostNode) (ns : List HostNode) (hu : n.leafUrl = none) :
    leafNodes (n :: ns) = leafNodes ns := by
  simp [leafNodes, List.filterMap_cons, hu]

theorem leafNodes_cons_some (n : HostNode) (ns : List HostNode) (u : String)
    (hu : n.leafUrl = some u) : leafNodes (n :: ns) = (n, u) :: leafNodes ns := by
  simp [leafNodes, List.filterMap_cons, hu]

theorem convertLoop_good (originOf : String → Option String) (fresh : Nat → String)
    (now : Nat) (m : List (Option String × Bookmark)) :
    ∀ (ns : List HostNode) (c : Nat),
      List.Forall₂ (GoodRec originOf) (leafNodes ns)
        (convertLoop originOf fresh now m ns c).1 := by
  intro ns
  induction ns with
  | nil => intro c; exact List.Forall₂.nil
  | cons n ns ih =>
    intro c
    cases hu : n.leafUrl with
    | none =>
      rw [leafNodes_cons_none n ns hu]
      simp only [convertLoop, hu]
      exact ih c
    | some u =>
      rw [leafNodes_cons_some n ns u hu]
      cases hm : mapGet m n.id with
      | some eb =>
        simp only [convertLoop, hu, hm]
        refine List.Forall₂.cons ?_ (ih c)
        refine goodRec_setFavicon originOf n u _ rfl ?_ rfl
        intro h
        simp [mergeExisting, h]
      | none =>
        simp only [convertLoop, hu, hm]
        refine List.Forall₂.cons ?_ (ih (c + 1))
        refine goodRec_setFavicon originOf n u _ rfl ?_ rfl
        intro h
        simp [createFromNode, h]

theorem lookup_aligned (originOf : String → Option String) :
    ∀ {ps : List (HostNode × String)} {L : List Bookmark},
      List.Forall₂ (GoodRec originOf) ps L →
      (ps.map fun p => p.1.id).Nodup →
      List.Forall₂
        (fun p r =>
          mapGet (L.map fun b => (b.originalId, b)) p.1.id = some r ∧ GoodRec originOf p r)
        ps L := by
  intro ps L h
  induction h with
  | nil => intro _; exact List.Forall₂.nil
  | @cons p r ps' L' h₁ h₂ ih =>
    intro hN
    rw [List.map_cons, List.nodup_cons] at hN
    obtain ⟨hnm, hN'⟩ := hN
    refine List.Forall₂.cons ⟨?_, h₁⟩ (forall₂_imp_mem (ih hN') ?_)
    · rw [List.map_cons, h₁.1]
      apply mapGet_cons_self
      intro pr hpr
      rcases List.mem_map.mp hpr with ⟨b, hb, rfl⟩
      rcases forall₂_mem_right h₂ b hb with ⟨q, hq, hgq⟩
      rw [hgq.1]
      intro hcontra
      exact hnm (List.mem_map.mpr ⟨q, hq, (Option.some.inj hcontra)⟩)
    · intro q hq b hb hqb
      refine ⟨?_, hqb.2⟩
      rw [List.map_cons, h₁.1, mapGet_cons_ne]
      · exact hqb.1
      · intro he
        exact hnm (List.mem_map.mpr ⟨q, hq, he⟩)

theorem merge_noop (originOf : String → Option String) (now : Nat) (n : HostNode)
    (u : String) (r : Bookmark) (hg : GoodRec originOf (n, u) r) :
    setFavicon originOf (mergeExisting now n u r) = { r with updatedAt := now } := by
  obtain ⟨hid, ht, hu, hf⟩ := hg
  have hm : mergeExisting now n u r = { r with updatedAt := now } := by
    unfold mergeExisting
    apply Bookmark.ext <;> simp [hid, hu]
    intro h
    exact (ht h).symm
  rw [hm]
  unfold setFavicon
  split
  · have hfr : strOptFalsy r.favicon = true := ‹_›
    have hor : originOf u = none := hf hfr
    have hur : ({ r with updatedAt := now } : Bookmark).url = u := hu
    rw [hur, hor]
  · rfl

theorem convertLoop_second (originOf : String → Option String) (fresh : Nat → String)
    (now : Nat) (fullMap : List (Option String × Bookmark)) :
    ∀ (ns : List HostNode) (L : List Bookmark) (c : Nat),
      List.Forall₂
        (fun p r => mapGet fullMap p.1.id = some r ∧ GoodRec originOf p r)
        (leafNodes ns) L →
      (convertLoop originOf fresh now fullMap ns c).1
        = L.map fun b => { b with updatedAt := now } := by
  intro ns
  induction ns with
  | nil =>
    intro L c h
    have hL : L = [] := by simpa [leafNodes] using h
    subst hL
    rfl
  | cons n ns ih =>
    intro L c h
    cases hu : n.leafUrl with
    | none =>
      rw [leafNodes_cons_none n ns hu] at h
      simp only [convertLoop, hu]
      exact ih L c h
    | some u =>
      rw [leafNodes_cons_some n ns u hu] at h
      cases h with
      | cons h₁ h₂ =>
        simp only [convertLoop, hu, h₁.1, List.map_cons]
        rw [merge_noop originOf now n u _ h₁.2]
        cases hm : mapGet fullMap n.id
        · rw [hm] at h₁
          exact absurd h₁.1 (by simp)
        · have hmr := h₁.1
          rw [hm] at hmr
          simp only [Option.some.injEq] at hmr
          subst hmr
          exact congrArg _ (ih _ c h₂)

theorem recount_length (now : Nat) (bks : List Bookmark) (cats : List Category) :
    (recount now bks cats).length = cats.length := by
  simp [recount]

theorem recount_map_updatedAt (now₁ now₂ : Nat) (bks : List Bookmark)
    (cats : List Category) :
    recount now₂ (bks.map fun b => { b with updatedAt := now₂ }) (recount now₁ bks cats)
      = (recount now₁ bks cats).map fun c => { c with updatedAt := now₂ } := by
  unfold recount
  rw [List.map_map, List.map_map]
  apply List.map_congr_left
  intro c _
  have hflt : ((bks.map fun b => ({ b with updatedAt := now₂ } : Bookmark)).filter
        fun b => b.categoryId == c.id).length
      = (bks.filter fun b => b.categoryId == c.id).length := by
    rw [List.filter_map, List.length_map]
    rfl
  apply Category.ext <;> simp [Function.comp, hflt]

/-- C1 (counterexample): reconciliation as implemented by
`convertBrowserBookmarks` is not idempotent.  Re-running it on an
unchanged one-leaf host tree, feeding the first pass's output back in as
the prior state, yields a different output: the correlated bookmark's
`updatedAt` is overwritten with the second pass's clock value (200
instead of 100), even though nothing changed. -/
theorem c1_counterexample :
    convertBrowserBookmarks originNone freshIds 200 sampleHost
        (convertBrowserBookmarks originNone freshIds 100 sampleHost [] []).bookmarks
        (convertBrowserBookmarks originNone freshIds 100 sampleHost [] []).categories
      ≠ convertBrowserBookmarks originNone freshIds 100 sampleHost [] [] := by
  decide

/-- C1 (amended): reconciliation is idempotent modulo timestamps.  When
the host nodes are unchanged and host leaf ids are pairwise distinct,
feeding the first pass's output bookmarks and categories back in as the
prior state yields output identical to the first pass except that every
bookmark's and every category's `updatedAt` is set to the second pass's
clock value: ids, titles, urls, tags, categoryIds, visit data and
bookmark counts are all unchanged and no duplicate records are created. -/
theorem c1_sync_idempotent_modulo_updatedAt (originOf : String → Option String)
    (fresh fresh₂ : Nat → String) (now₁ now₂ : Nat) (hostNodes : List HostNode)
    (priorB : List Bookmark) (priorC : List Category)
    (hN : ((leafNodes hostNodes).map fun p => p.1.id).Nodup) :
    convertBrowserBookmarks originOf fresh₂ now₂ hostNodes
        (convertBrowserBookmarks originOf fresh now₁ hostNodes priorB priorC).bookmarks
        (convertBrowserBookmarks originOf fresh now₁ hostNodes priorB priorC).categories
      = { bookmarks :=
            (convertBrowserBookmarks originOf fresh now₁ hostNodes priorB priorC).bookmarks.map
              fun b => { b with updatedAt := now₂ },
          categories :=
            (convertBrowserBookmarks originOf fresh now₁ hostNodes priorB priorC).categories.map
              fun c => { c with updatedAt := now₂ } } := by
  set p1 := convertBrowserBookmarks originOf fresh now₁ hostNodes priorB priorC with hp1
  have hA : List.Forall₂ (GoodRec originOf) (leafNodes hostNodes) p1.bookmarks := by
    have hbk1 : p1.bookmarks
        = (convertLoop originOf fresh now₁ (priorB.map fun b => (b.originalId, b))
            hostNodes 0).1 := by
      rw [hp1]
      rfl
    rw [hbk1]
    exact convertLoop_good originOf fresh now₁ (priorB.map fun b => (b.originalId, b))
      hostNodes 0
  have hAl := lookup_aligned originOf hA hN
  have hbk2 : (convertBrowserBookmarks originOf fresh₂ now₂ hostNodes
        p1.bookmarks p1.categories).bookmarks
      = p1.bookmarks.map fun b => { b with updatedAt := now₂ } := by
    have hbkdef : (convertBrowserBookmarks originOf fresh₂ now₂ hostNodes
          p1.bookmarks p1.categories).bookmarks
        = (convertLoop originOf fresh₂ now₂ (p1.bookmarks.map fun b => (b.originalId, b))
            hostNodes 0).1 := rfl
    rw [hbkdef]
    exact convertLoop_second originOf fresh₂ now₂ _ hostNodes p1.bookmarks 0 hAl
  have hcats1 : p1.categories
      = recount now₁ p1.bookmarks
          (if 0 < priorC.length then priorC else defaultCategories now₁) := rfl
  have hlen : 0 < p1.categories.length := by
    rw [hcats1, recount_length]
    split
    · assumption
    · simp [defaultCategories]
  have hcat2 : (convertBrowserBookmarks originOf fresh₂ now₂ hostNodes
        p1.bookmarks p1.categories).categories
      = recount now₂ (convertBrowserBookmarks originOf fresh₂ now₂ hostNodes
          p1.bookmarks p1.categories).bookmarks
          (if 0 < p1.categories.length then p1.categories else defaultCategories now₂) := rfl
  rw [if_pos hlen, hbk2] at hcat2
  apply ConvertResult.ext
  · exact hbk2
  · rw [hcat2, hcats1, recount_map_updatedAt]

/-- Witness for the amended C1 at a concrete input: one host leaf, empty
prior state, first pass at time 100, second pass at time 200. -/
theorem c1_witness :
    convertBrowserBookmarks originNone freshIds 200 sampleHost
        (convertBrowserBookmarks originNone freshIds 100 sampleHost [] []).bookmarks
        (convertBrowserBookmarks originNone freshIds 100 sampleHost [] []).categories
      = { bookmarks :=
            (convertBrowserBookmarks originNone freshIds 100 sampleHost [] []).bookmarks.map
              fun b => { b with updatedAt := 200 },
          categories :=
            (convertBrowserBookmarks originNone freshIds 100 sampleHost [] []).categories.map
              fun c => { c with updatedAt := 200 } } :=
  c1_sync_idempotent_modulo_updatedAt originNone freshIds freshIds 100 200 sampleHost [] []
    (by decide)

/-- C2 (counterexample): a prior record with no `hostId` is not retained.
Syncing against an empty host tree with a single stored
application-created bookmark (no `originalId`) yields an output set that
does not contain it, contradicting the claim that such records always
appear unchanged in the output. -/
theorem c2_counterexample :
    orphanBookmark ∉
      (convertBrowserBookmarks originNone freshIds 100 [] [orphanBookmark]
        (defaultCategories 0)).bookmarks := by
  decide

/-- C2 (amended): every record in the sync output correlates to a host
leaf (its `originalId` is some host leaf's id).  Consequently a prior
record with no `hostId` is dropped, not retained, and a prior record
whose `hostId` no longer appears among the host nodes is likewise absent
from the output. -/
theorem c2_sync_output_host_correlated (originOf : String → Option String)
    (fresh : Nat → String) (now : Nat) (hostNodes : List HostNode)
    (priorB : List Bookmark) (priorC : List Category) :
    (∀ bm ∈ (convertBrowserBookmarks originOf fresh now hostNodes priorB priorC).bookmarks,
        ∃ n ∈ hostNodes, n.leafUrl ≠ none ∧ bm.originalId = some n.id) ∧
    (∀ pr ∈ priorB, pr.originalId = none →
        pr ∉ (convertBrowserBookmarks originOf fresh now hostNodes priorB priorC).bookmarks) ∧
    (∀ pr ∈ priorB, ∀ hid : String, pr.originalId = some hid →
        (∀ n ∈ hostNodes, n.id ≠ hid) →
        pr ∉ (convertBrowserBookmarks originOf fresh now hostNodes priorB priorC).bookmarks) := by
  have hA : List.Forall₂ (GoodRec originOf) (leafNodes hostNodes)
      (convertBrowserBookmarks originOf fresh now hostNodes priorB priorC).bookmarks := by
    have hbk : (convertBrowserBookmarks originOf fresh now hostNodes priorB priorC).bookmarks
        = (convertLoop originOf fresh now (priorB.map fun b => (b.originalId, b))
            hostNodes 0).1 := rfl
    rw [hbk]
    exact convertLoop_good originOf fresh now (priorB.map fun b => (b.originalId, b))
      hostNodes 0
  have hmain : ∀ bm ∈ (convertBrowserBookmarks originOf fresh now
        hostNodes priorB priorC).bookmarks,
      ∃ n ∈ hostNodes, n.leafUrl ≠ none ∧ bm.originalId = some n.id := by
    intro bm hbm
    rcases forall₂_mem_right hA bm hbm with ⟨p, hp, hg⟩
    have hp' : ∃ n ∈ hostNodes, ∃ u, n.leafUrl = some u ∧ (n, u) = p := by
      simpa [leafNodes] using hp
    rcases hp' with ⟨n, hn, u, hu, hpn⟩
    refine ⟨n, hn, by simp [hu], ?_⟩
    have hid := hg.1
    rw [← hpn] at hid
    exact hid
  refine ⟨hmain, ?_, ?_⟩
  · intro pr _ hnone hmem
    rcases hmain pr hmem with ⟨n, _, _, hsome⟩
    rw [hnone] at hsome
    cases hsome
  · intro pr _ hid hsome hnid hmem
    rcases hmain pr hmem with ⟨n, hn, _, hsome2⟩
    rw [hsome] at hsome2
    exact hnid n hn (Option.some.inj hsome2).symm

/-- Witness for the amended C2 at a concrete input: the app-created
record (no `originalId`) is not among the output of a sync against the
one-leaf sample host tree. -/
theorem c2_witness :
    orphanBookmark ∉
      (convertBrowserBookmarks originNone freshIds 100 sampleHost [orphanBookmark]
        []).bookmarks :=
  (c2_sync_output_host_correlated originNone freshIds 100 sampleHost [orphanBookmark]
    []).2.1 orphanBookmark (by decide) rfl

theorem mapSetTag_inv (m : List (String × Tag)) (k : String) (v : Tag)
    (h1 : (m.map Prod.fst).Nodup) (hv : v.name = k ∧ v.count = 0)
    (h2 : ∀ p ∈ m, p.2.name = p.1 ∧ p.2.count = 0) :
    ((mapSetTag m k v).map Prod.fst).Nodup ∧
    (∀ p ∈ mapSetTag m k v, p.2.name = p.1 ∧ p.2.count = 0) := by
  unfold mapSetTag
  split
  · constructor
    · have hkeys : ((m.map fun p => if p.1 == k then (k, v) else p).map Prod.fst)
          = m.map Prod.fst := by
        rw [List.map_map]
        apply List.map_congr_left
        intro p _
        simp only [Function.comp]
        split
        · next h => exact (eq_of_beq h).symm
        · rfl
      rw [hkeys]
      exact h1
    · intro p hp
      rcases List.mem_map.mp hp with ⟨q, hq, rfl⟩
      split
      · next h => exact ⟨hv.1, hv.2⟩
      · exact h2 q hq
  · next hnin =>
    have hnk : k ∉ m.map Prod.fst := by
      intro hk
      rcases List.mem_map.mp hk with ⟨q, hq, rfl⟩
      exact hnin (List.any_eq_true.mpr ⟨q, hq, by simp⟩)
    constructor
    · rw [List.map_append]
      simp only [List.map_cons, List.map_nil]
      exact List.Nodup.append h1 (List.nodup_singleton k)
        (by simpa [List.disjoint_singleton] using hnk)
    · intro p hp
      rcases List.mem_append.mp hp with hp | hp
      · exact h2 p hp
      · rcases List.mem_singleton.mp hp with rfl
        exact ⟨hv.1, hv.2⟩

theorem initTagMap_inv (ts : List Tag) :
    ((initTagMap ts).map Prod.fst).Nodup ∧
    (∀ p ∈ initTagMap ts, p.2.name = p.1 ∧ p.2.count = 0) := by
  suffices h : ∀ (ts : List Tag) (m : List (String × Tag)),
      (m.map Prod.fst).Nodup → (∀ p ∈ m, p.2.name = p.1 ∧ p.2.count = 0) →
      (((ts.foldl (fun m t => mapSetTag m t.name { t with count := 0 }) m).map
          Prod.fst).Nodup ∧
        (∀ p ∈ ts.foldl (fun m t => mapSetTag m t.name { t with count := 0 }) m,
          p.2.name = p.1 ∧ p.2.count = 0)) by
    exact h ts [] (by simp) (by simp)
  intro ts
  induction ts with
  | nil => intro m h1 h2; exact ⟨h1, h2⟩
  | cons t ts ih =>
    intro m h1 h2
    rw [List.foldl_cons]
    have hset := mapSetTag_inv m t.name { t with count := 0 } h1 ⟨rfl, rfl⟩ h2
    exact ih _ hset.1 hset.2

theorem tagFold_inv (now : Nat) (fresh : Nat → String) :
    ∀ (names : List String) (m : List (String × Tag)) (c : Nat) (processed : List String),
      (m.map Prod.fst).Nodup →
      (∀ p ∈ m, p.2.name = p.1) →
      (∀ p ∈ m, p.2.count = processed.count p.1) →
      (∀ name ∈ processed, name ∈ m.map Prod.fst) →
      (((names.foldl (tagStep now fresh) (m, c)).1.map Prod.fst).Nodup ∧
        (∀ p ∈ (names.foldl (tagStep now fresh) (m, c)).1, p.2.name = p.1) ∧
        (∀ p ∈ (names.foldl (tagStep now fresh) (m, c)).1,
          p.2.count = (processed ++ names).count p.1) ∧
        (∀ name ∈ processed ++ names,
          name ∈ (names.foldl (tagStep now fresh) (m, c)).1.map Prod.fst)) := by
  intro names
  induction names with
  | nil =>
    intro m c processed h1 h2 h3 h4
    simp only [List.foldl_nil, List.append_nil]
    exact ⟨h1, h2, h3, h4⟩
  | cons name rest ih =>
    intro m c processed h1 h2 h3 h4
    rw [List.foldl_cons]
    have hshape : ∀ (m' : List (String × Tag)) (c' : Nat),
        (m'.map Prod.fst).Nodup → (∀ p ∈ m', p.2.name = p.1) →
        (∀ p ∈ m', p.2.count = (processed ++ [name]).count p.1) →
        (∀ nm ∈ processed ++ [name], nm ∈ m'.map Prod.fst) →
        (((rest.foldl (tagStep now fresh) (m', c')).1.map Prod.fst).Nodup ∧
          (∀ p ∈ (rest.foldl (tagStep now fresh) (m', c')).1, p.2.name = p.1) ∧
          (∀ p ∈ (rest.foldl (tagStep now fresh) (m', c')).1,
            p.2.count = (processed ++ name :: rest).count p.1) ∧
          (∀ nm ∈ processed ++ name :: rest,
            nm ∈ (rest.foldl (tagStep now fresh) (m', c')).1.map Prod.fst)) := by
      intro m' c' g1 g2 g3 g4
      have hres := ih m' c' (processed ++ [name]) g1 g2 g3 g4
      have hpn : (processed ++ [name]) ++ rest = processed ++ name :: rest := by
        simp
      rw [hpn] at hres
      exact hres
    by_cases hin : (m.any fun p => p.1 == name) = true
    · have hstep : tagStep now fresh (m, c) name
          = (m.map fun p =>
              if p.1 == name then (p.1, { p.2 with count := p.2.count + 1 }) else p, c) := by
        unfold tagStep
        rw [if_pos hin]
      rw [hstep]
      have hkeys : ((m.map fun p =>
            if p.1 == name then (p.1, { p.2 with count := p.2.count + 1 }) else p).map
              Prod.fst) = m.map Prod.fst := by
        rw [List.map_map]
        apply List.map_congr_left
        intro p _
        simp only [Function.comp]
        split <;> rfl
      apply hshape
      · rw [hkeys]
        exact h1
      · intro p hp
        rcases List.mem_map.mp hp with ⟨q, hq, rfl⟩
        split
        · exact h2 q hq
        · exact h2 q hq
      · intro p hp
        rcases List.mem_map.mp hp with ⟨q, hq, rfl⟩
        by_cases hq1 : (q.1 == name) = true
        · rw [if_pos hq1]
          have hqe : q.1 = name := eq_of_beq hq1
          rw [List.count_append, h3 q hq, hqe]
          simp
        · rw [if_neg hq1]
          rw [List.count_append, h3 q hq]
          have hzero : List.count q.1 [name] = 0 := by
            rw [List.count_eq_zero]
            intro hc
            rcases List.mem_singleton.mp hc with rfl
            simp at hq1
          rw [hzero]
          omega
      · intro nm hnm
        rw [hkeys]
        rcases List.mem_append.mp hnm with hnm | hnm
        · exact h4 nm hnm
        · rcases List.mem_singleton.mp hnm with rfl
          rcases List.any_eq_true.mp hin with ⟨q, hq, hqe⟩
          exact List.mem_map.mpr ⟨q, hq, eq_of_beq hqe⟩
    · have hstep : tagStep now fresh (m, c) name
          = (m ++ [(name,
              { id := fresh c, name := name, count := 1, createdAt := now,
                updatedAt := now, isAiGenerated := false })], c + 1) := by
        unfold tagStep
        rw [if_neg hin]
      rw [hstep]
      have hnk : name ∉ m.map Prod.fst := by
        intro hk
        rcases List.mem_map.mp hk with ⟨q, hq, rfl⟩
        exact hin (List.any_eq_true.mpr ⟨q, hq, by simp⟩)
      apply hshape
      · rw [List.map_append]
        simp only [List.map_cons, List.map_nil]
        exact List.Nodup.append h1 (List.nodup_singleton name)
          (by simpa [List.disjoint_singleton] using hnk)
      · intro p hp
        rcases List.mem_append.mp hp with hp | hp
        · exact h2 p hp
        · rcases List.mem_singleton.mp hp with rfl
          rfl
      · intro p hp
        rcases List.mem_append.mp hp with hp | hp
        · have hp1 : p.1 ≠ name := by
            intro he
            exact hnk (he ▸ List.mem_map.mpr ⟨p, hp, rfl⟩)
          rw [List.count_append, h3 p hp]
          have hzero : List.count p.1 [name] = 0 := by
            rw [List.count_eq_zero]
            intro hc
            rcases List.mem_singleton.mp hc with rfl
            exact hp1 rfl
          rw [hzero]
          omega
        · rcases List.mem_singleton.mp hp with rfl
          have hnp : name ∉ processed := fun hc => hnk (h4 name hc)
          rw [List.count_append]
          have hzero : List.count name processed = 0 :=
            List.count_eq_zero.mpr hnp
          simp [hzero]
      · intro nm hnm
        rw [List.map_append]
        rcases List.mem_append.mp hnm with hnm | hnm
        · exact List.mem_append.mpr (Or.inl (h4 nm hnm))
        · rcases List.mem_singleton.mp hnm with rfl
          exact List.mem_append.mpr (Or.inr (by simp))

/-- C4 (counterexample): a TagRecord's recomputed count is the number of
occurrences of that tag name across all bookmarks' tag lists, not the
number of bookmarks referencing it.  A single bookmark whose tag list is
`["a", "a"]` yields a record for "a" with count 2, while only one
bookmark references "a". -/
theorem c4_counterexample :
    ¬ (∀ t ∈ updateTags 0 freshIds [dupTagBookmark] [],
        t.count = ([dupTagBookmark].filter fun b => b.tags.contains t.name).length) := by
  decide

/-- C4 (amended): after `updateTags` (the `retag` aggregate) over any
bookmark set and prior tag set, no TagRecord has count 0, every TagRecord's
count equals the number of occurrences of its name across all bookmarks'
tag lists (which equals the number of referencing bookmarks whenever no
bookmark repeats a tag name), and every tag name referenced by at least
one bookmark has exactly one corresponding TagRecord in the result. -/
theorem c4_retag_spec (now : Nat) (fresh : Nat → String) (bookmarks : List Bookmark)
    (tags : List Tag) :
    (∀ t ∈ updateTags now fresh bookmarks tags,
        0 < t.count ∧ t.count = (allTagNames bookmarks).count t.name) ∧
    (∀ name ∈ allTagNames bookmarks,
        ((updateTags now fresh bookmarks tags).filter fun t => t.name == name).length
          = 1) := by
  have hinit := initTagMap_inv tags
  have hfold := tagFold_inv now fresh (allTagNames bookmarks) (initTagMap tags) 0 []
    hinit.1 (fun p hp => (hinit.2 p hp).1)
    (fun p hp => by simpa using (hinit.2 p hp).2) (by simp)
  obtain ⟨hN, hnames, hcounts, hmem⟩ := hfold
  have hcounts' : ∀ p ∈ ((allTagNames bookmarks).foldl (tagStep now fresh)
        (initTagMap tags, 0)).1, p.2.count = (allTagNames bookmarks).count p.1 := by
    intro p hp
    simpa using hcounts p hp
  have hmem' : ∀ name ∈ allTagNames bookmarks,
      name ∈ ((allTagNames bookmarks).foldl (tagStep now fresh)
        (initTagMap tags, 0)).1.map Prod.fst := by
    intro name hn
    exact hmem name (by simpa using hn)
  have hupd : updateTags now fresh bookmarks tags
      = ((((allTagNames bookmarks).foldl (tagStep now fresh)
          (initTagMap tags, 0)).1.map Prod.snd).filter fun t => decide (0 < t.count)) :=
    rfl
  constructor
  · intro t ht
    rw [hupd] at ht
    obtain ⟨htm, htpos⟩ := List.mem_filter.mp ht
    rcases List.mem_map.mp htm with ⟨p, hp, rfl⟩
    refine ⟨by simpa using htpos, ?_⟩
    rw [hnames p hp]
    exact hcounts' p hp
  · intro name hname
    rw [hupd, List.filter_filter, List.filter_map, List.length_map]
    have hcongr : ∀ p ∈ ((allTagNames bookmarks).foldl (tagStep now fresh)
          (initTagMap tags, 0)).1,
        ((fun a => a.name == name && decide (0 < a.count)) ∘ Prod.snd) p
          = (p.1 == name) := by
      intro p hp
      by_cases hpk : p.1 = name
      · have hpn : p.2.name = name := (hnames p hp).trans hpk
        have hpos : 0 < p.2.count := by
          rw [hcounts' p hp, hpk]
          exact List.count_pos_iff.mpr hname
        simp [Function.comp, hpn, hpk, hpos]
      · have h1 : (p.2.name == name) = false :=
          beq_eq_false_iff_ne.mpr (by rw [hnames p hp]; exact hpk)
        have h2 : (p.1 == name) = false := beq_eq_false_iff_ne.mpr hpk
        simp [Function.comp, h1, h2]
    rw [List.filter_congr hcongr]
    have hlen : (((allTagNames bookmarks).foldl (tagStep now fresh)
          (initTagMap tags, 0)).1.filter fun p => p.1 == name).length
        = (((allTagNames bookmarks).foldl (tagStep now fresh)
          (initTagMap tags, 0)).1.map Prod.fst).count name := by
      rw [List.count_eq_countP, List.countP_map, List.countP_eq_length_filter]
      rfl
    rw [hlen]
    exact List.count_eq_one_of_mem hN (hmem' name hname)

/-- Witness for the amended C4 at a concrete input: after retagging a
single bookmark tagged `["a", "a"]`, the result holds exactly one
TagRecord named "a". -/
theorem c4_witness :
    ((updateTags 0 freshIds [dupTagBookmark] []).filter fun t => t.name == "a").length
      = 1 :=
  (c4_retag_spec 0 freshIds [dupTagBookmark] []).2 "a" (by decide)

theorem mem_insertOrd {α : Type} (r : α → α → Bool) (a : α) (l : List α) (x : α) :
    x ∈ insertOrd r a l ↔ x = a ∨ x ∈ l := by
  induction l with
  | nil => simp [insertOrd]
  | cons y ys ih =>
    unfold insertOrd
    split
    · simp [List.mem_cons]
    · simp only [List.mem_cons, ih]
      tauto

theorem mem_sortOrd {α : Type} (r : α → α → Bool) (l : List α) (x : α) :
    x ∈ sortOrd r l ↔ x ∈ l := by
  induction l with
  | nil => simp [sortOrd]
  | cons a l ih =>
    unfold sortOrd
    rw [mem_insertOrd]
    simp [ih]

theorem insertOrd_congr {α : Type} (r₁ r₂ : α → α → Bool) (a : α) (l : List α)
    (h : ∀ y ∈ l, r₁ a y = r₂ a y) : insertOrd r₁ a l = insertOrd r₂ a l := by
  induction l with
  | nil => rfl
  | cons y ys ih =>
    unfold insertOrd
    rw [h y (List.mem_cons_self y ys)]
    split
    · rfl
    · rw [ih fun z hz => h z (List.mem_cons_of_mem y hz)]

theorem enumF_le_fst {α : Type} (l : List α) :
    ∀ (j : Nat), ∀ p ∈ enumF j l, j ≤ p.1 := by
  induction l with
  | nil => intro j p hp; cases hp
  | cons a l ih =>
    intro j p hp
    rcases List.mem_cons.mp hp with rfl | hp
    · exact Nat.le_refl j
    · exact Nat.le_of_succ_le (ih (j + 1) p hp)

theorem sortLex_eq_sortKey (l : List Bookmark) :
    ∀ i : Nat, sortOrd visitIdxLe (enumF i l)
      = sortOrd (fun p q => byVisitDesc p.2 q.2) (enumF i l) := by
  induction l with
  | nil => intro i; rfl
  | cons a l ih =>
    intro i
    show insertOrd visitIdxLe (i, a) (sortOrd visitIdxLe (enumF (i + 1) l))
      = insertOrd (fun p q => byVisitDesc p.2 q.2) (i, a)
          (sortOrd (fun p q => byVisitDesc p.2 q.2) (enumF (i + 1) l))
    rw [ih (i + 1)]
    apply insertOrd_congr
    intro y hy
    have hle : i + 1 ≤ y.1 :=
      enumF_le_fst l (i + 1) y ((mem_sortOrd _ _ y).mp hy)
    unfold visitIdxLe byVisitDesc
    rw [decide_eq_decide]
    constructor
    · intro h
      rcases h with h | ⟨h, _⟩
      · exact Nat.le_of_lt h
      · exact Nat.le_of_eq h.symm
    · intro h
      rcases Nat.lt_or_eq_of_le h with h | h
      · exact Or.inl h
      · exact Or.inr ⟨h.symm, Nat.le_of_succ_le hle⟩

theorem map_snd_insertOrd (r : Bookmark → Bookmark → Bool) (p : Nat × Bookmark)
    (l : List (Nat × Bookmark)) :
    (insertOrd (fun x y => r x.2 y.2) p l).map Prod.snd
      = insertOrd r p.2 (l.map Prod.snd) := by
  induction l with
  | nil => rfl
  | cons y ys ih =>
    show ((if r p.2 y.2 then p :: y :: ys
        else y :: insertOrd (fun x y => r x.2 y.2) p ys).map Prod.snd)
      = insertOrd r p.2 ((y :: ys).map Prod.snd)
    rw [List.map_cons]
    show _ = (if r p.2 y.2 then p.2 :: y.2 :: ys.map Prod.snd
      else y.2 :: insertOrd r p.2 (ys.map Prod.snd))
    split
    · rw [List.map_cons, List.map_cons]
    · rw [List.map_cons, ih]

theorem map_snd_sortOrd (l : List Bookmark) :
    ∀ i : Nat, (sortOrd (fun (x y : Nat × Bookmark) => byVisitDesc x.2 y.2)
        (enumF i l)).map Prod.snd = sortOrd byVisitDesc l := by
  induction l with
  | nil => intro i; rfl
  | cons a l ih =>
    intro i
    show (insertOrd (fun (x y : Nat × Bookmark) => byVisitDesc x.2 y.2) (i, a)
        (sortOrd _ (enumF (i + 1) l))).map Prod.snd = _
    rw [map_snd_insertOrd, ih (i + 1)]
    rfl

theorem length_insertOrd {α : Type} (r : α → α → Bool) (a : α) (l : List α) :
    (insertOrd r a l).length = l.length + 1 := by
  induction l with
  | nil => rfl
  | cons y ys ih =>
    unfold insertOrd
    split
    · rfl
    · simp [ih]

theorem length_sortOrd {α : Type} (r : α → α → Bool) (l : List α) :
    (sortOrd r l).length = l.length := by
  induction l with
  | nil => rfl
  | cons a l ih =>
    unfold sortOrd
    rw [length_insertOrd, ih]
    rfl

theorem specTop20_eq (bms : List Bookmark) :
    specTop20 bms = (sortOrd byVisitDesc bms).take 20 := by
  unfold specTop20
  rw [sortLex_eq_sortKey bms 0, List.map_take, map_snd_sortOrd bms 0]

/-- C5: with `categoryId = "frequent"`, the store projection selects
exactly the 20 bookmarks with the highest `visitCount` from the full
candidate set, ties broken by the original array order (formalized by
`specTop20`: sort index-tagged bookmarks by the total order "higher
visitCount first, then lower index", take 20), and this selection is
computed before the tag filter and the keyword filter, which then narrow
only that 20-item subset before sorting. -/
theorem c5_frequent_top20 (cmpStr : String → String → Int) (now : Nat)
    (p : SearchParams) (bms : List Bookmark) (hp : p.categoryId = "frequent") :
    filteredBookmarks cmpStr now p bms
      = sortStage cmpStr p (keywordStage p (tagStage p (specTop20 bms))) ∧
    specTop20 bms = (sortOrd byVisitDesc bms).take 20 ∧
    (specTop20 bms).length = min 20 bms.length := by
  have hspec : specTop20 bms = (sortOrd byVisitDesc bms).take 20 := specTop20_eq bms
  refine ⟨?_, hspec, ?_⟩
  · have hcat : categoryStage now p bms = specTop20 bms := by
      unfold categoryStage
      rw [hp, hspec]
      rw [if_pos (by decide : ("frequent" : String) ≠ "" ∧ ("frequent" : String) ≠ "all")]
      rw [if_neg (by decide : ¬ ("frequent" : String) = "uncategorized")]
      rw [if_pos rfl]
    unfold filteredBookmarks
    rw [hcat]
  · rw [hspec, List.length_take, length_sortOrd]

/-- Witness for C5 at a concrete input: 5 bookmarks with assorted visit
counts under the `frequent` parameters. -/
theorem c5_witness :
    filteredBookmarks cmpZero 0 frequentParams visitSample
      = sortStage cmpZero frequentParams
          (keywordStage frequentParams (tagStage frequentParams
            (specTop20 visitSample))) :=
  (c5_frequent_top20 cmpZero 0 frequentParams visitSample rfl).1

/-- C6 (counterexample): the tag filter of the service's
`searchBookmarks` keeps a bookmark that matches only some of the
requested tags.  Requesting tags `["a", "b"]` over a single bookmark
tagged only `["a"]` returns that bookmark instead of excluding it. -/
theorem c6_counterexample :
    serviceSearchBookmarks 0 [partialTagBookmark] none none (some ["a", "b"])
      = [partialTagBookmark] := by
  decide

/-- C6 (amended): the store projection's tag filter uses AND semantics —
for a non-empty requested tag list it keeps exactly the bookmarks whose
tag set contains every requested tag — whereas the service's
`searchBookmarks` tag filter uses OR semantics, keeping exactly the
bookmarks that carry at least one requested tag. -/
theorem c6_tag_filter_semantics (p : SearchParams) (bms : List Bookmark) (b : Bookmark)
    (hp : p.tags ≠ []) (ts : List String) (hts : ts ≠ []) :
    (b ∈ tagStage p bms ↔ b ∈ bms ∧ ∀ t ∈ p.tags, t ∈ b.tags) ∧
    (b ∈ serviceTagStage (some ts) bms ↔ b ∈ bms ∧ ∃ t ∈ ts, t ∈ b.tags) := by
  constructor
  · unfold tagStage
    rw [if_pos hp]
    simp [List.mem_filter, List.all_eq_true]
  · show b ∈ (if ts ≠ [] then bms.filter fun b => ts.any fun t => b.tags.contains t
        else bms) ↔ _
    rw [if_pos hts]
    simp [List.mem_filter, List.any_eq_true]

/-- Witness for C6 at a concrete input: the service filter's membership
characterization for the two-tag request over the one-tag bookmark. -/
theorem c6_witness :
    partialTagBookmark ∈ serviceTagStage (some ["a", "b"]) [partialTagBookmark]
      ↔ partialTagBookmark ∈ [partialTagBookmark] ∧
        ∃ t ∈ ["a", "b"], t ∈ partialTagBookmark.tags :=
  (c6_tag_filter_semantics twoTagParams [partialTagBookmark] partialTagBookmark
    (by decide) ["a", "b"] (by decide)).2

theorem pairwise_insertOrd {α : Type} (r : α → α → Bool)
    (htot : ∀ a b, r a b = true ∨ r b a = true)
    (htrans : ∀ a b c, r a b = true → r b c = true → r a c = true)
    (a : α) (l : List α) (h : l.Pairwise fun x y => r x y = true) :
    (insertOrd r a l).Pairwise fun x y => r x y = true := by
  induction l with
  | nil => simp [insertOrd]
  | cons y ys ih =>
    unfold insertOrd
    obtain ⟨hy, hys⟩ := List.pairwise_cons.mp h
    split
    · next hr =>
      refine List.Pairwise.cons ?_ h
      intro z hz
      rcases List.mem_cons.mp hz with rfl | hz
      · exact hr
      · exact htrans a y z hr (hy z hz)
    · next hr =>
      have hya : r y a = true := (htot a y).resolve_left hr
      refine List.Pairwise.cons ?_ (ih hys)
      intro z hz
      rcases (mem_insertOrd r a ys z).mp hz with rfl | hz
      · exact hya
      · exact hy z hz

theorem pairwise_sortOrd {α : Type} (r : α → α → Bool)
    (htot : ∀ a b, r a b = true ∨ r b a = true)
    (htrans : ∀ a b c, r a b = true → r b c = true → r a c = true)
    (l : List α) : (sortOrd r l).Pairwise fun x y => r x y = true := by
  induction l with
  | nil => exact List.Pairwise.nil
  | cons a l ih => exact pairwise_insertOrd r htot htrans a (sortOrd r l) ih

theorem perm_insertOrd {α : Type} (r : α → α → Bool) (a : α) (l : List α) :
    (insertOrd r a l).Perm (a :: l) := by
  induction l with
  | nil => exact List.Perm.refl _
  | cons y ys ih =>
    unfold insertOrd
    split
    · exact List.Perm.refl _
    · exact List.Perm.trans (List.Perm.cons y ih) (List.Perm.swap a y ys)

theorem perm_sortOrd {α : Type} (r : α → α → Bool) (l : List α) :
    (sortOrd r l).Perm l := by
  induction l with
  | nil => exact List.Perm.refl _
  | cons a l ih =>
    exact List.Perm.trans (perm_insertOrd r a (sortOrd r l)) (List.Perm.cons a ih)

theorem orderLe_total (a b : CatNode) :
    decide (CatNode.order a ≤ CatNode.order b) = true ∨
    decide (CatNode.order b ≤ CatNode.order a) = true := by
  rcases Nat.le_total (CatNode.order a) (CatNode.order b) with h | h
  · exact Or.inl (decide_eq_true h)
  · exact Or.inr (decide_eq_true h)

theorem orderLe_trans (a b c : CatNode)
    (h1 : decide (CatNode.order a ≤ CatNode.order b) = true)
    (h2 : decide (CatNode.order b ≤ CatNode.order c) = true) :
    decide (CatNode.order a ≤ CatNode.order c) = true :=
  decide_eq_true (Nat.le_trans (of_decide_eq_true h1) (of_decide_eq_true h2))

theorem buildTree_pairwise (cats : List Category) (fuel : Nat) (p : String) (lv : Nat) :
    (buildTree cats fuel p lv).Pairwise fun a b =>
      CatNode.order a ≤ CatNode.order b := by
  cases fuel with
  | zero => exact List.Pairwise.nil
  | succ f =>
    have hp := pairwise_sortOrd (fun a b => decide (CatNode.order a ≤ CatNode.order b))
      orderLe_total orderLe_trans
      ((childrenOf cats p).map fun c => nodeOf c lv (buildTree cats f c.id (lv + 1)))
    exact hp.imp fun h => of_decide_eq_true h

theorem buildTree_good (cats : List Category) :
    ∀ (fuel : Nat) (p : String) (lv : Nat), ∀ t ∈ buildTree cats fuel p lv,
      GoodNode lv t := by
  intro fuel
  induction fuel with
  | zero => intro p lv t ht; cases ht
  | succ f ih =>
    intro p lv t ht
    have ht' := (mem_sortOrd _ _ t).mp ht
    rcases List.mem_map.mp ht' with ⟨c, _, rfl⟩
    exact GoodNode.mk c.id c.name c.parentId c.color c.icon c.order c.createdAt
      c.updatedAt c.bookmarkCount c.isAiGenerated c.builtin lv
      (buildTree cats f c.id (lv + 1))
      (fun t' ht' => ih c.id (lv + 1) t' ht')
      (buildTree_pairwise cats f c.id (lv + 1))

theorem buildTree_ids (cats : List Category) (fuel : Nat) (p : String) (lv : Nat)
    (hf : 1 ≤ fuel) :
    ((buildTree cats fuel p lv).map CatNode.id).Perm
      ((childrenOf cats p).map Category.id) := by
  cases fuel with
  | zero => cases hf
  | succ f =>
    have hperm := (perm_sortOrd (fun a b => decide (CatNode.order a ≤ CatNode.order b))
      ((childrenOf cats p).map fun c => nodeOf c lv (buildTree cats f c.id (lv + 1)))).map
      CatNode.id
    rw [List.map_map] at hperm
    exact hperm

/-- C7 (counterexample): `buildCategoryTree` does not preserve a
persisted `folderState`.  A root category stored with `folderState =
collapsed` is projected with `folderState = expanded`, because the
builder always overwrites `folderState` with the level-computed
default. -/
theorem c7_counterexample :
    collapsedRootCategory.folderState = some FolderState.collapsed ∧
    (buildCategoryTree [collapsedRootCategory]).map CatNode.folderState
      = [FolderState.expanded] := by
  decide

/-- C7 (amended): `buildCategoryTree` groups the categories by
`parentId || 'root'` into a tree (at every recursion level with fuel
left, the node ids are a permutation of the sibling group's category
ids), sorts **every** sibling group by `order` ascending — the root
sibling list it returns is itself `Pairwise`-sorted, as is every sibling
list `buildTree` produces, and each node's children list recursively via
`GoodNode` — assigns level 0 to roots and `level + 1` to children, and
assigns the level-computed folderState (expanded for the root level,
collapsed deeper) to **every** node, overriding any persisted
`folderState` rather than only defaulting absent ones (`GoodNode`
packages the level, folderState, and children-sort facts recursively). -/
theorem c7_build_category_tree_spec (cats : List Category) :
    (∀ t ∈ buildCategoryTree cats, GoodNode 0 t) ∧
    (buildCategoryTree cats).Pairwise
      (fun a b => CatNode.order a ≤ CatNode.order b) ∧
    (∀ (fuel : Nat) (p : String) (lv : Nat),
      (buildTree cats fuel p lv).Pairwise
        (fun a b => CatNode.order a ≤ CatNode.order b)) ∧
    (∀ (fuel : Nat) (p : String) (lv : Nat), 1 ≤ fuel →
      ((buildTree cats fuel p lv).map CatNode.id).Perm
        ((childrenOf cats p).map Category.id)) ∧
    ((buildCategoryTree cats).map CatNode.id).Perm
      ((childrenOf cats "root").map Category.id) := by
  refine ⟨?_, ?_, ?_, ?_, ?_⟩
  · intro t ht
    exact buildTree_good cats (cats.length + 1) "root" 0 t ht
  · exact buildTree_pairwise cats (cats.length + 1) "root" 0
  · intro fuel p lv
    exact buildTree_pairwise cats fuel p lv
  · intro fuel p lv hf
    exact buildTree_ids cats fuel p lv hf
  · exact buildTree_ids cats (cats.length + 1) "root" 0 (Nat.succ_le_succ (Nat.zero_le _))

/-- Witness for the amended C7 at a concrete input: the id permutation at
the root of the singleton category list, with one unit of fuel. -/
theorem c7_witness :
    ((buildTree [collapsedRootCategory] 1 "root" 0).map CatNode.id).Perm
      ((childrenOf [collapsedRootCategory] "root").map Category.id) :=
  (c7_build_category_tree_spec [collapsedRootCategory]).2.2.2.1 1 "root" 0 (by decide)

theorem applyPatch_catPatch (b : Bookmark) (now : Nat) :
    applyPatch b { categoryId := some "uncategorized" } now = reassignCat now b := by
  apply Bookmark.ext <;> rfl

theorem updateFirst_id_map {α : Type} (f : α → α) (g : α → String) (p : α → Bool)
    (hf : ∀ x, g (f x) = g x) (l : List α) :
    (updateFirst p f l).map g = l.map g := by
  induction l with
  | nil => rfl
  | cons x xs ih =>
    unfold updateFirst
    split
    · rw [List.map_cons, List.map_cons, hf]
    · rw [List.map_cons, List.map_cons, ih]

theorem updateCBC_shape (st : Store) (cid : String) (now : Nat) :
    (updateCategoryBookmarkCount st cid now).bookmarks = st.bookmarks ∧
    (updateCategoryBookmarkCount st cid now).tags = st.tags ∧
    (updateCategoryBookmarkCount st cid now).categories.map Category.id
      = st.categories.map Category.id := by
  unfold updateCategoryBookmarkCount
  split
  · refine ⟨rfl, rfl, ?_⟩
    show (updateFirst (fun c => c.id == cid)
        (fun c =>
          { c with
            bookmarkCount := (st.bookmarks.filter fun b => b.categoryId == cid).length,
            updatedAt := now })
        st.categories).map Category.id = st.categories.map Category.id
    exact updateFirst_id_map
      (fun c =>
        { c with
          bookmarkCount := (st.bookmarks.filter fun b => b.categoryId == cid).length,
          updatedAt := now })
      Category.id (fun c => c.id == cid) (fun c => rfl) st.categories
  · exact ⟨rfl, rfl, rfl⟩

theorem updateFirst_const_eq_map (l : List Bookmark) (bid : String)
    (g : Bookmark → Bookmark) (v : Bookmark)
    (hN : (l.map Bookmark.id).Nodup)
    (hv : ∀ b ∈ l, b.id = bid → v = g b) :
    updateFirst (fun b => b.id == bid) (fun _ => v) l
      = l.map fun b => if b.id = bid then g b else b := by
  induction l with
  | nil => rfl
  | cons x xs ih =>
    rw [List.map_cons, List.nodup_cons] at hN
    obtain ⟨hx, hN'⟩ := hN
    unfold updateFirst
    by_cases hxe : x.id = bid
    · rw [if_pos (beq_iff_eq.mpr hxe), List.map_cons, if_pos hxe]
      rw [← hv x (List.mem_cons_self x xs) hxe]
      congr 1
      have hid : ∀ b ∈ xs, (if b.id = bid then g b else b) = b := by
        intro b hb
        rw [if_neg]
        intro he
        exact hx (List.mem_map.mpr ⟨b, hb, he.trans hxe.symm⟩)
      rw [List.map_congr_left hid]
      exact (List.map_id' xs).symm
    · rw [if_neg (by simpa using hxe), List.map_cons, if_neg hxe]
      rw [ih hN' fun b hb he => hv b (List.mem_cons_of_mem x hb) he]

theorem reassign_ids_preserved (l : List Bookmark) (bid : String) (now : Nat) :
    ((l.map fun b => if b.id = bid then reassignCat now b else b).map
      Bookmark.id) = l.map Bookmark.id := by
  rw [List.map_map]
  apply List.map_congr_left
  intro b _
  simp only [Function.comp]
  split <;> rfl

theorem updateBookmark_catPatch (s : Store) (bid : String) (now : Nat)
    (fresh : Nat → String) (hN : (s.bookmarks.map Bookmark.id).Nodup) :
    ((updateBookmark s bid { categoryId := some "uncategorized" } now fresh).2.bookmarks
        = s.bookmarks.map fun b => if b.id = bid then reassignCat now b else b) ∧
    ((updateBookmark s bid { categoryId := some "uncategorized" } now
        fresh).2.categories.map Category.id = s.categories.map Category.id) ∧
    ((updateBookmark s bid { categoryId := some "uncategorized" } now fresh).2.tags
        = s.tags) := by
  cases hf : s.bookmarks.find? fun b => b.id == bid with
  | none =>
    have hnb : ∀ b ∈ s.bookmarks, ¬ b.id = bid := by
      intro b hb
      have h2 := List.find?_eq_none.mp hf b hb
      simpa using h2
    have hmap : (s.bookmarks.map fun b => if b.id = bid then reassignCat now b else b)
        = s.bookmarks := by
      have h' : ∀ b ∈ s.bookmarks,
          (if b.id = bid then reassignCat now b else b) = b :=
        fun b hb => if_neg (hnb b hb)
      rw [List.map_congr_left h']
      exact List.map_id' s.bookmarks
    have hres : updateBookmark s bid { categoryId := some "uncategorized" } now fresh
        = (false, s) := by
      unfold updateBookmark
      rw [hf]
    rw [hres, hmap]
    exact ⟨rfl, rfl, rfl⟩
  | some old =>
    have hold_mem : old ∈ s.bookmarks := List.mem_of_find?_eq_some hf
    have hold_id : old.id = bid := by simpa using List.find?_some hf
    have hv : ∀ b ∈ s.bookmarks, b.id = bid →
        applyPatch old { categoryId := some "uncategorized" } now = reassignCat now b := by
      intro b hb he
      have hbo : b = old :=
        List.inj_on_of_nodup_map hN hb hold_mem (by rw [he, hold_id])
      rw [hbo, applyPatch_catPatch]
    have hbk1 : updateFirst (fun b => b.id == bid)
        (fun _ => applyPatch old { categoryId := some "uncategorized" } now) s.bookmarks
        = s.bookmarks.map fun b => if b.id = bid then reassignCat now b else b :=
      updateFirst_const_eq_map s.bookmarks bid _ _ hN hv
    simp only [updateBookmark, hf]
    rw [applyPatch_catPatch] at hbk1 ⊢
    have htags : ¬ old.tags ≠ (reassignCat now old).tags := by
      simp [reassignCat]
    rw [if_neg htags]
    by_cases hcc : old.categoryId = (reassignCat now old).categoryId
    · rw [if_neg (not_not_intro hcc)]
      rw [hbk1]
      exact ⟨rfl, rfl, rfl⟩
    · rw [if_pos hcc]
      refine ⟨?_, ?_, ?_⟩
      · rw [(updateCBC_shape _ _ _).1, (updateCBC_shape _ _ _).1, hbk1]
      · rw [(updateCBC_shape _ _ _).2.2, (updateCBC_shape _ _ _).2.2]
      · rw [(updateCBC_shape _ _ _).2.1, (updateCBC_shape _ _ _).2.1]

theorem reassignCat_idem (now : Nat) (b : Bookmark) :
    reassignCat now (reassignCat now b) = reassignCat now b := rfl

theorem reassignCat_id (now : Nat) (b : Bookmark) :
    (reassignCat now b).id = b.id := rfl

theorem deleteCategory_loop (now : Nat) (fresh : Nat → String) :
    ∀ (todo : List Bookmark) (s : Store),
      (s.bookmarks.map Bookmark.id).Nodup →
      (((todo.foldl (fun s b => (updateBookmark s b.id
            { categoryId := some "uncategorized" } now fresh).2) s).bookmarks
          = s.bookmarks.map fun b =>
              if b.id ∈ todo.map Bookmark.id then reassignCat now b else b) ∧
        ((todo.foldl (fun s b => (updateBookmark s b.id
            { categoryId := some "uncategorized" } now fresh).2) s).categories.map
          Category.id = s.categories.map Category.id) ∧
        ((todo.foldl (fun s b => (updateBookmark s b.id
            { categoryId := some "uncategorized" } now fresh).2) s).tags = s.tags)) := by
  intro todo
  induction todo with
  | nil =>
    intro s _
    refine ⟨?_, rfl, rfl⟩
    have h' : ∀ b ∈ s.bookmarks,
        (if b.id ∈ ([] : List Bookmark).map Bookmark.id then reassignCat now b else b)
          = b := by
      intro b _
      rw [if_neg]
      simp
    rw [List.foldl_nil, List.map_congr_left h']
    exact (List.map_id' s.bookmarks).symm
  | cons hd tl ih =>
    intro s hN
    rw [List.foldl_cons]
    obtain ⟨h1, h2, h3⟩ := updateBookmark_catPatch s hd.id now fresh hN
    have hN₁ : (((updateBookmark s hd.id { categoryId := some "uncategorized" } now
        fresh).2).bookmarks.map Bookmark.id).Nodup := by
      rw [h1, reassign_ids_preserved]
      exact hN
    obtain ⟨g1, g2, g3⟩ := ih _ hN₁
    refine ⟨?_, ?_, ?_⟩
    · rw [g1, h1, List.map_map]
      apply List.map_congr_left
      intro b _
      simp only [Function.comp]
      by_cases hb1 : b.id = hd.id <;> by_cases hb2 : b.id ∈ tl.map Bookmark.id <;>
        simp [hb1, hb2, reassignCat]
    · rw [g2, h2]
    · rw [g3, h3]

/-- C8 (counterexample): `deleteCategory` can leave a dangling
`categoryId`.  With a non-builtin category whose id is the reserved
string `uncategorized`, deletion succeeds, the affected bookmark is
"reassigned" to `uncategorized` — the very id being deleted — and the
category list afterwards no longer contains that id, so the bookmark's
`categoryId` dangles. -/
theorem c8_counterexample :
    fakeUncategorized.builtin = false ∧
    (deleteCategory fakeUncatStore "uncategorized" 5 freshIds).1 = true ∧
    ((deleteCategory fakeUncatStore "uncategorized" 5 freshIds).2.bookmarks.map
      Bookmark.categoryId) = ["uncategorized"] ∧
    (deleteCategory fakeUncatStore "uncategorized" 5 freshIds).2.categories = [] := by
  decide

/-- C8 (amended): `deleteCategory` never deletes a builtin (or missing)
category — it returns `false` and leaves the store untouched — and when
it deletes a non-builtin category whose id is not the reserved string
`uncategorized` (and bookmark ids are pairwise distinct), every bookmark
that referenced the deleted category is reassigned to `uncategorized`
with its `updatedAt` bumped, all other bookmarks are untouched, and
afterwards no bookmark references the deleted id and no category with
that id remains. -/
theorem c8_delete_category_spec (st : Store) (id : String) (now : Nat)
    (fresh : Nat → String) :
    (((st.categories.find? fun c => c.id == id) = none ∨
        (∃ c, (st.categories.find? fun c' => c'.id == id) = some c ∧ c.builtin = true)) →
      deleteCategory st id now fresh = (false, st)) ∧
    (∀ c, (st.categories.find? fun c' => c'.id == id) = some c → c.builtin = false →
      id ≠ "uncategorized" → (st.bookmarks.map Bookmark.id).Nodup →
      ((deleteCategory st id now fresh).1 = true ∧
        (deleteCategory st id now fresh).2.bookmarks
          = st.bookmarks.map (fun b =>
              if b.categoryId = id then reassignCat now b else b) ∧
        (∀ b ∈ (deleteCategory st id now fresh).2.bookmarks, b.categoryId ≠ id) ∧
        (∀ c' ∈ (deleteCategory st id now fresh).2.categories, c'.id ≠ id))) := by
  constructor
  · intro h
    rcases h with h | ⟨c, hc, hb⟩
    · unfold deleteCategory
      rw [h]
    · unfold deleteCategory
      rw [hc]
      show (if c.builtin = true then ((false, st) : Bool × Store) else _) = (false, st)
      rw [if_pos hb]
  · intro c hc hb hid hN
    have hred : deleteCategory st id now fresh
        = (true,
            { ((st.bookmarks.filter fun b => b.categoryId == id).foldl
                (fun s b => (updateBookmark s b.id
                  { categoryId := some "uncategorized" } now fresh).2) st) with
              categories := ((st.bookmarks.filter fun b => b.categoryId == id).foldl
                (fun s b => (updateBookmark s b.id
                  { categoryId := some "uncategorized" } now fresh).2)
                st).categories.filter fun c => c.id != id }) := by
      unfold deleteCategory
      rw [hc]
      show (if c.builtin = true then ((false, st) : Bool × Store) else _) = _
      rw [if_neg (by rw [hb]; simp)]
    obtain ⟨g1, _, _⟩ :=
      deleteCategory_loop now fresh (st.bookmarks.filter fun b => b.categoryId == id)
        st hN
    have hiff : ∀ b ∈ st.bookmarks,
        (b.id ∈ ((st.bookmarks.filter fun b' => b'.categoryId == id).map Bookmark.id))
          ↔ b.categoryId = id := by
      intro b hb'
      constructor
      · intro hmem
        rcases List.mem_map.mp hmem with ⟨b', hbf, hbeq⟩
        have hbm : b' ∈ st.bookmarks := (List.mem_filter.mp hbf).1
        have hbc : (b'.categoryId == id) = true := (List.mem_filter.mp hbf).2
        have hbb : b' = b := List.inj_on_of_nodup_map hN hbm hb' hbeq
        rw [← hbb]
        exact beq_iff_eq.mp hbc
      · intro hcat
        exact List.mem_map.mpr ⟨b, List.mem_filter.mpr ⟨hb', beq_iff_eq.mpr hcat⟩, rfl⟩
    have hbks : (deleteCategory st id now fresh).2.bookmarks
        = st.bookmarks.map fun b =>
            if b.categoryId = id then reassignCat now b else b := by
      rw [hred]
      show ((st.bookmarks.filter fun b => b.categoryId == id).foldl
          (fun s b => (updateBookmark s b.id
            { categoryId := some "uncategorized" } now fresh).2) st).bookmarks = _
      rw [g1]
      apply List.map_congr_left
      intro b hb'
      by_cases hc1 : b.categoryId = id
      · rw [if_pos ((hiff b hb').mpr hc1), if_pos hc1]
      · rw [if_neg (fun hm => hc1 ((hiff b hb').mp hm)), if_neg hc1]
    refine ⟨by rw [hred], hbks, ?_, ?_⟩
    · intro b hbm
      rw [hbks] at hbm
      rcases List.mem_map.mp hbm with ⟨b₀, _, rfl⟩
      by_cases hc1 : b₀.categoryId = id
      · rw [if_pos hc1]
        exact Ne.symm hid
      · rw [if_neg hc1]
        exact hc1
    · intro c' hcm
      rw [hred] at hcm
      have hcm' := List.mem_filter.mp hcm
      simpa using hcm'.2

/-- Witness for the amended C8 at a concrete input: deleting the
non-builtin category `c1` from a store with one bookmark filed under it
succeeds and reassigns that bookmark. -/
theorem c8_witness :
    (deleteCategory
        { bookmarks := [{ uncatBookmark with categoryId := "c1" }],
          categories := [sampleCategory], tags := [] } "c1" 9 freshIds).1 = true ∧
    (deleteCategory
        { bookmarks := [{ uncatBookmark with categoryId := "c1" }],
          categories := [sampleCategory], tags := [] } "c1" 9 freshIds).2.bookmarks
      = [{ uncatBookmark with categoryId := "c1" }].map (fun b =>
          if b.categoryId = "c1" then reassignCat 9 b else b) ∧
    (∀ b ∈ (deleteCategory
        { bookmarks := [{ uncatBookmark with categoryId := "c1" }],
          categories := [sampleCategory], tags := [] } "c1" 9 freshIds).2.bookmarks,
      b.categoryId ≠ "c1") ∧
    (∀ c' ∈ (deleteCategory
        { bookmarks := [{ uncatBookmark with categoryId := "c1" }],
          categories := [sampleCategory], tags := [] } "c1" 9 freshIds).2.categories,
      c'.id ≠ "c1") :=
  ((c8_delete_category_spec
      { bookmarks := [{ uncatBookmark with categoryId := "c1" }],
        categories := [sampleCategory], tags := [] } "c1" 9 freshIds).2
    sampleCategory (by decide) (by decide) (by decide) (by decide)).imp id
    (fun h => h)

/-- C9: the store's `deleteBookmark` with an id matching no stored
bookmark returns `false` and leaves the bookmark collection, the
category counts, and the tag set unchanged — the not-found branch
performs no mutation. -/
theorem c9_delete_bookmark_not_found (st : Store) (id : String) (now : Nat)
    (fresh : Nat → String) (h : ∀ b ∈ st.bookmarks, b.id ≠ id) :
    deleteBookmark st id now fresh = (false, st) := by
  unfold deleteBookmark
  have hf : (st.bookmarks.find? fun b => b.id == id) = none := by
    rw [List.find?_eq_none]
    intro b hb
    simpa using h b hb
  rw [hf]

/-- Witness for C9 at a concrete input. -/
theorem c9_witness :
    deleteBookmark sampleStore "missing-id" 7 freshIds = (false, sampleStore) :=
  c9_delete_bookmark_not_found sampleStore "missing-id" 7 freshIds (by decide)

mutual
theorem searchNode_eq_filter (q : String) (n : BNode) :
    searchNode q n = (flattenNode n).filter (nodeMatches q) := by
  match n with
  | BNode.mk i t u cs =>
    rw [searchNode, flattenNode, List.filter_cons, searchNodes_eq_filter q cs]
    by_cases hm : nodeMatches q (BNode.mk i t u cs) = true
    · rw [if_pos hm, if_pos hm]
      rfl
    · rw [if_neg hm, if_neg hm]
      rfl

theorem searchNodes_eq_filter (q : String) (ns : List BNode) :
    searchNodes q ns = (flattenNodes ns).filter (nodeMatches q) := by
  match ns with
  | [] => rfl
  | n :: ns' =>
    rw [searchNodes, flattenNodes, List.filter_append, searchNode_eq_filter q n,
      searchNodes_eq_filter q ns']
end

/-- C10: the helper's `searchBookmarks` returns the empty list — not the
full node set — for an empty query string, and for a non-empty query it
returns exactly the nodes of the depth-first preorder traversal of the
whole forest (children of non-matching nodes included) whose title or
url contains the query case-insensitively. -/
theorem c10_search_bookmarks_spec (nodes : List BNode) (q : String) :
    searchBookmarksHelper nodes "" = [] ∧
    (q ≠ "" → searchBookmarksHelper nodes q
      = (flattenNodes nodes).filter (nodeMatches q)) := by
  constructor
  · rfl
  · intro hq
    unfold searchBookmarksHelper
    rw [if_neg hq]
    exact searchNodes_eq_filter q nodes

/-- Witness for C10 at a concrete input: searching a two-level forest for
"lean" matches the nested leaf through its non-matching parent folder. -/
theorem c10_witness :
    searchBookmarksHelper sampleForest "lean"
      = (flattenNodes sampleForest).filter (nodeMatches "lean") :=
  (c10_search_bookmarks_spec sampleForest "lean").2 (by decide)

end ChromeFavExpand
